import Mathlib

set_option maxHeartbeats 1000000

/-!
Shallow embedding of the xv6 buffer cache in `kernel/bio.c` (sharded-bucket
variant with `N = 13` buckets and a global fallback scan).  Each cache
operation is modelled as an atomic state transformer; a `panic` in the C code
is modelled by the operation returning `none`.  Lock acquisition is modelled
by the enabledness side conditions of the `Step` relation: an operation that
would block forever (acquiring a sleep lock that is already held in a
sequential execution) is simply not an enabled step.
-/

/-- Modelled from the spec: a Buffer Slot of `struct buf` (the header `buf.h`
is not part of the repository sources, only its uses in `bio.c` are).  The
fields are the `(device, block_number)` identity, the `valid` flag, the
per-slot exclusive sleep lock (as a Bool: held or free), the `use_count`
(`refcnt`) and the `recency` stamp (`time`), both modelled as natural-number
counters per the spec's data model.  Block contents are not modelled. -/
structure Buf where
  dev : Nat
  blockno : Nat
  valid : Bool
  locked : Bool
  refcnt : Nat
  time : Nat
deriving DecidableEq

/-- The zero-initialised C global `bcache.buf` entry. -/
def buf0 : Buf :=
  { dev := 0, blockno := 0, valid := false, locked := false, refcnt := 0, time := 0 }

/-- Whole-cache state: the slot pool `bcache.buf`, the `bucket` array of 13
singly-linked membership lists (slot indices, list head first, exactly as the
`head`/`next` pointers chain them), and the kernel tick counter. -/
structure State where
  buf : List Buf
  bucket : List (List Nat)
  ticks : Nat
deriving DecidableEq

/-- `#define N 13`, the number of buckets in `bio.c`. -/
def N : Nat := 13

/-- The initial bound `uint time = -1` of the LRU scans in `bget`:
the largest 32-bit unsigned value. -/
def uintMax : Nat := 4294967295

/-- Read slot `i`; out-of-range reads yield the zero buffer (never reachable
under the invariant). -/
def getBuf (s : State) (i : Nat) : Buf := s.buf.getD i buf0

/-- The membership list of bucket `k` (`bucket[k].head` chain). -/
def bktAt (s : State) (k : Nat) : List Nat := s.bucket.getD k []

/-- The cache-hit test `i->dev == dev && i->blockno == blockno` of `bget`. -/
def bmatch (b : Buf) (dev bn : Nat) : Prop := b.dev = dev ∧ b.blockno = bn

instance (b : Buf) (dev bn : Nat) : Decidable (bmatch b dev bn) :=
  inferInstanceAs (Decidable (And _ _))

/-- The hit half of `bget`'s bucket scan: the first slot in the bucket list
matching `(dev, blockno)` (the loop returns at the first match, so the
LRU-candidate bookkeeping of the same loop is discarded on a hit). -/
def firstMatch (bufs : List Buf) (L : List Nat) (dev bn : Nat) : Option Nat :=
  match L with
  | [] => none
  | i :: rest =>
      if bmatch (bufs.getD i buf0) dev bn then some i else firstMatch bufs rest dev bn

/-- The LRU-candidate accumulation of `bget`'s scans: `best`/`bound` are the
running `b`/`time` variables; an element is taken when
`i->refcnt == 0 && i->time < time`. -/
def lruGo (bufs : List Buf) (L : List Nat) (best : Option Nat) (bound : Nat) : Option Nat :=
  match L with
  | [] => best
  | i :: rest =>
      if (bufs.getD i buf0).refcnt = 0 ∧ (bufs.getD i buf0).time < bound then
        lruGo bufs rest (some i) (bufs.getD i buf0).time
      else
        lruGo bufs rest best bound

/-- The local (single-bucket) LRU scan of `bget`, starting from
`b = 0, time = (uint)-1`. -/
def lruScan (bufs : List Buf) (L : List Nat) : Option Nat := lruGo bufs L none uintMax

/-- The global scan of `bget` (label `globalfind`): the same LRU selection over
the whole pool in array order, starting again from `time = (uint)-1`. -/
def globalScan (bufs : List Buf) : Option Nat :=
  lruGo bufs (List.range bufs.length) none uintMax

/-- The cache-hit update of `bget`: `i->refcnt++` followed by
`acquiresleep(&i->lock)`. -/
def bumpRef (i : Nat) (s : State) : State :=
  let b := getBuf s i
  { s with buf := s.buf.set i { b with refcnt := b.refcnt + 1, locked := true } }

/-- The reclamation update of `bget` (both the local path and the tail of the
global path): `b->dev = dev; b->blockno = blockno; b->valid = 0; b->refcnt = 1`
followed by `acquiresleep(&b->lock)`. -/
def reassign (dev bn b : Nat) (s : State) : State :=
  let x := getBuf s b
  { s with
    buf := s.buf.set b
      { x with dev := dev, blockno := bn, valid := false, refcnt := 1, locked := true } }

/-- The list surgery of `bget`'s global path: unlink candidate `b` from bucket
`no2` (its single occurrence), then push it at the head of bucket `no`. -/
def migrate (b no2 no : Nat) (s : State) : State :=
  let s1 : State := { s with bucket := s.bucket.set no2 ((bktAt s no2).erase b) }
  { s1 with bucket := s1.bucket.set no (b :: bktAt s1 no) }

/-- `bget(dev, blockno)`: hit in the home bucket, else local LRU reclaim, else
global scan plus migration; `none` is `panic("bget: no buffers")`.  The
sequential (atomic) model omits the `goto globalfind` re-check, which cannot
fail when the whole call executes without interleaving. -/
def bget (dev bn : Nat) (s : State) : Option (Nat × State) :=
  let no := bn % N
  match firstMatch s.buf (bktAt s no) dev bn with
  | some i => some (i, bumpRef i s)
  | none =>
    match lruScan s.buf (bktAt s no) with
    | some b => some (b, reassign dev bn b s)
    | none =>
      match globalScan s.buf with
      | some b => some (b, reassign dev bn b (migrate b ((getBuf s b).blockno % N) no s))
      | none => none

/-- The `b->valid = 1` write performed by `bread` after `virtio_disk_rw`. -/
def setValid (i : Nat) (s : State) : State :=
  let b := getBuf s i
  { s with buf := s.buf.set i { b with valid := true } }

/-- The `if(!b->valid)` tail of `bread`: read from the device and mark the
slot valid iff it was invalid.  The Bool records whether the Device I/O read
primitive (`virtio_disk_rw(b, 0)`, an external collaborator) was invoked. -/
def breadBody (i : Nat) (t : State) : Nat × Bool × State :=
  if (getBuf t i).valid = true then (i, false, t) else (i, true, setValid i t)

/-- `bread(dev, blockno)`: `bget`, then read from the device iff the slot is
invalid. -/
def bread (dev bn : Nat) (s : State) : Option (Nat × Bool × State) :=
  match bget dev bn s with
  | none => none
  | some (i, t) => some (breadBody i t)

/-- `bwrite(b)`: `panic("bwrite")` unless the sleep lock is held; the device
write itself does not change cache state. -/
def bwrite (i : Nat) (s : State) : Option State :=
  if (getBuf s i).locked = true then some s else none

/-- The state change of a successful `brelse`: release the sleep lock,
decrement `refcnt`, and stamp `time = ticks` when the count reaches zero. -/
def brelseBody (i : Nat) (s : State) : State :=
  let b := getBuf s i
  let r := b.refcnt - 1
  { s with
    buf := s.buf.set i
      { b with locked := false, refcnt := r, time := if r = 0 then s.ticks else b.time } }

/-- `brelse(b)`: `panic("brelse")` unless the sleep lock is held; otherwise
release, decrement and stamp as in `brelseBody`. -/
def brelse (i : Nat) (s : State) : Option State :=
  if (getBuf s i).locked = true then some (brelseBody i s) else none

/-- `bpin(b)`: increment `refcnt` under the slot's bucket lock. -/
def bpin (i : Nat) (s : State) : State :=
  let b := getBuf s i
  { s with buf := s.buf.set i { b with refcnt := b.refcnt + 1 } }

/-- `bunpin(b)`: decrement `refcnt` under the slot's bucket lock.  Note that
unlike `brelse` there is no check of any kind and no recency stamp. -/
def bunpin (i : Nat) (s : State) : State :=
  let b := getBuf s i
  { s with buf := s.buf.set i { b with refcnt := b.refcnt - 1 } }

/-- Modelled from the spec: the Tick Counter collaborator (`ticks` lives
outside `bio.c`), a process-wide monotonically non-decreasing counter. -/
def tick (s : State) : State := { s with ticks := s.ticks + 1 }

/-- One iteration of the `binit` initialisation loop: slot `i` gets
`blockno = j` and is pushed at the head of `bucket[j]`; then `j = (j+1) % N`. -/
def binitStep (p : State × Nat) (i : Nat) : State × Nat :=
  let s := p.1
  let j := p.2
  ({ s with
      buf := s.buf.set i { getBuf s i with blockno := j },
      bucket := s.bucket.set j (i :: bktAt s j) },
   (j + 1) % N)

/-- The zero-initialised globals before `binit` runs, for a pool of `n` slots
(`NBUF` comes from `param.h`, which is not in the sources, so the pool size is
kept as a parameter). -/
def state0 (n : Nat) : State :=
  { buf := List.replicate n buf0, bucket := List.replicate N [], ticks := 0 }

/-- `binit()` for a pool of `n` slots: round-robin assignment of slots to
buckets by head insertion. -/
def binit (n : Nat) : State := ((List.range n).foldl binitStep (state0 n, 0)).1

/-! ### The reachable-state invariant

`Inv` packages: the bucket array has 13 entries; bucket members are valid slot
indices; a slot linked into bucket `k` has `blockno % N = k` (the hashing
invariant); every slot is linked into its home bucket; bucket lists have no
duplicates; and every in-use slot (positive `refcnt`, or sleep lock held) is
the first slot of its home bucket carrying its own `(dev, blockno)` identity,
i.e. exactly the slot a `bget` scan for that identity returns. -/
def CacheInv (s : State) : Prop :=
  s.bucket.length = N ∧
  (∀ k, k < N → ∀ i ∈ bktAt s k, i < s.buf.length) ∧
  (∀ k, k < N → ∀ i ∈ bktAt s k, (getBuf s i).blockno % N = k) ∧
  (∀ i, i < s.buf.length → i ∈ bktAt s ((getBuf s i).blockno % N)) ∧
  (∀ k, k < N → (bktAt s k).Nodup) ∧
  (∀ i, i < s.buf.length →
    ((getBuf s i).refcnt ≠ 0 ∨ (getBuf s i).locked = true) →
    firstMatch s.buf (bktAt s ((getBuf s i).blockno % N)) (getBuf s i).dev
      (getBuf s i).blockno = some i)

instance (s : State) : Decidable (CacheInv s) := by
  unfold CacheInv
  infer_instance

/-- The prefix of the `binit` loop after `t` of `n` iterations. -/
def binitP (n t : Nat) : State × Nat := (List.range t).foldl binitStep (state0 n, 0)

/-! ### The transition relation: atomic, contract-respecting API calls

A step is an API call that runs to completion: `bread`/`brelse`/`bwrite`
steps exist only when the call does not panic, a `bread` step additionally
requires that the final `acquiresleep` does not block (the slot's sleep lock
is free), a `bpin` step is a caller pinning a buffer it holds (as the log
layer does), a `bunpin` step is a caller unpinning a buffer it previously
pinned (positive use count), and `clock` is a tick of the external counter. -/
inductive Step : State → State → Prop where
  | fetch {dev bn i : Nat} {r : Bool} {s t : State} :
      bread dev bn s = some (i, r, t) → (getBuf s i).locked = false → Step s t
  | write {i : Nat} {s t : State} : bwrite i s = some t → Step s t
  | rel {i : Nat} {s t : State} : brelse i s = some t → Step s t
  | pin {i : Nat} {s : State} : (getBuf s i).locked = true → Step s (bpin i s)
  | unpin {i : Nat} {s : State} : (getBuf s i).refcnt ≠ 0 → Step s (bunpin i s)
  | clock {s : State} : Step s (tick s)

/-- States reachable from `binit n` by any interleaving of completed API
calls and clock ticks. -/
def Reachable (n : Nat) (s : State) : Prop := Relation.ReflTransGen Step (binit n) s

/-- `m` clock ticks in a row. -/
def tickN (m : Nat) (s : State) : State := { s with ticks := s.ticks + m }

/-! ### Concrete states used to witness the claims (pool size 2) -/

/-- The bucket lists of a freshly initialised 2-slot cache. -/
def bucket2 : List (List Nat) := [[0], [1], [], [], [], [], [], [], [], [], [], [], []]

/-- State after `bread 0 0` from `binit 2`: slot 0 checked out and valid. -/
def demoA : State :=
  { buf := [⟨0, 0, true, true, 1, 0⟩, ⟨0, 1, false, false, 0, 0⟩],
    bucket := bucket2, ticks := 0 }

/-- State after `bread 0 0` then `bread 0 1` from `binit 2`: both slots held. -/
def demoB : State :=
  { buf := [⟨0, 0, true, true, 1, 0⟩, ⟨0, 1, true, true, 1, 0⟩],
    bucket := bucket2, ticks := 0 }

/-- State after `bread 0 0` then `brelse 0` from `binit 2`: slot 0 cached,
free and valid. -/
def demoU : State :=
  { buf := [⟨0, 0, true, false, 0, 0⟩, ⟨0, 1, false, false, 0, 0⟩],
    bucket := bucket2, ticks := 0 }

/-- State reached from `binit 2` after 4294967295 clock ticks and a
`bread 0 0`: slot 0 checked out while `ticks` sits at the scan sentinel. -/
def cx3b : State :=
  { buf := [⟨0, 0, true, true, 1, 0⟩, ⟨0, 1, false, false, 0, 0⟩],
    bucket := bucket2, ticks := 4294967295 }

/-- State after additionally releasing slot 0: its recency stamp equals the
scan sentinel `2^32 - 1`, making it invisible to both LRU scans. -/
def cx3 : State :=
  { buf := [⟨0, 0, true, false, 0, 4294967295⟩, ⟨0, 1, false, false, 0, 0⟩],
    bucket := bucket2, ticks := 4294967295 }

/-- State reached from `binit 2` after 100 clock ticks and a `bread 0 0`:
slot 0 checked out, recency stamp 0, ticks 100. -/
def cx5 : State :=
  { buf := [⟨0, 0, true, true, 1, 0⟩, ⟨0, 1, false, false, 0, 0⟩],
    bucket := bucket2, ticks := 100 }

/-- A state with slot 0 checked out and a nonzero tick counter, used to
observe the recency stamp written by `brelse`. -/
def cx8 : State :=
  { buf := [⟨0, 0, true, true, 1, 0⟩, ⟨0, 1, false, false, 0, 0⟩],
    bucket := bucket2, ticks := 7 }

/-! ### Basic list access lemmas -/

theorem getD_set_self {α : Type} (l : List α) (i : Nat) (v d : α) (h : i < l.length) :
    (l.set i v).getD i d = v := by
  simp [List.getD_eq_getElem?_getD, List.getElem?_set, h]

theorem getD_set_ne {α : Type} (l : List α) (i j : Nat) (v d : α) (h : i ≠ j) :
    (l.set i v).getD j d = l.getD j d := by
  simp [List.getD_eq_getElem?_getD, List.getElem?_set, h]

theorem set_oob {α : Type} (l : List α) (i : Nat) (v : α) (h : l.length ≤ i) :
    l.set i v = l := by
  induction l generalizing i with
  | nil => rfl
  | cons a t ih =>
      cases i with
      | zero => simp at h
      | succ n => simp only [List.set_cons_succ]; rw [ih n (by simpa using h)]

theorem getD_replicate {α : Type} (n i : Nat) (a : α) :
    (List.replicate n a).getD i a = a := by
  induction n generalizing i with
  | zero => rfl
  | succ m ih =>
      cases i with
      | zero => rfl
      | succ k => rw [List.replicate_succ, List.getD_cons_succ]; exact ih k

/-! ### Lemmas about the hit scan `firstMatch` -/

theorem fm_nil (bufs : List Buf) (d bn : Nat) : firstMatch bufs [] d bn = none := rfl

theorem fm_cons (bufs : List Buf) (i : Nat) (L : List Nat) (d bn : Nat) :
    firstMatch bufs (i :: L) d bn =
      if bmatch (bufs.getD i buf0) d bn then some i else firstMatch bufs L d bn := rfl

theorem fm_cons_match {bufs : List Buf} {i : Nat} {L : List Nat} {d bn : Nat}
    (h : bmatch (bufs.getD i buf0) d bn) :
    firstMatch bufs (i :: L) d bn = some i := by
  rw [fm_cons, if_pos h]

theorem fm_cons_no_match {bufs : List Buf} {i : Nat} {L : List Nat} {d bn : Nat}
    (h : ¬ bmatch (bufs.getD i buf0) d bn) :
    firstMatch bufs (i :: L) d bn = firstMatch bufs L d bn := by
  rw [fm_cons, if_neg h]

theorem fm_none_iff (bufs : List Buf) (L : List Nat) (d bn : Nat) :
    firstMatch bufs L d bn = none ↔ ∀ x ∈ L, ¬ bmatch (bufs.getD x buf0) d bn := by
  induction L with
  | nil => simp [fm_nil]
  | cons i rest ih =>
      by_cases h : bmatch (bufs.getD i buf0) d bn
      · rw [fm_cons_match h]
        exact iff_of_false (by simp) (fun hall => hall i (by simp) h)
      · rw [fm_cons_no_match h, ih]
        constructor
        · intro hall x hx
          rcases List.mem_cons.mp hx with rfl | hx
          · exact h
          · exact hall x hx
        · intro hall x hx
          exact hall x (by simp [hx])

theorem fm_append {bufs : List Buf} {l₁ : List Nat} (l₂ : List Nat) {d bn : Nat}
    (h : ∀ x ∈ l₁, ¬ bmatch (bufs.getD x buf0) d bn) :
    firstMatch bufs (l₁ ++ l₂) d bn = firstMatch bufs l₂ d bn := by
  induction l₁ with
  | nil => rfl
  | cons i rest ih =>
      rw [List.cons_append, fm_cons_no_match (h i (by simp))]
      exact ih (fun x hx => h x (by simp [hx]))

theorem fm_split {bufs : List Buf} {L : List Nat} {d bn i : Nat}
    (h : firstMatch bufs L d bn = some i) :
    ∃ l₁ l₂, L = l₁ ++ i :: l₂ ∧ (∀ x ∈ l₁, ¬ bmatch (bufs.getD x buf0) d bn) ∧
      bmatch (bufs.getD i buf0) d bn := by
  induction L with
  | nil => simp [firstMatch] at h
  | cons j rest ih =>
      by_cases hj : bmatch (bufs.getD j buf0) d bn
      · rw [fm_cons_match hj] at h
        obtain rfl : j = i := by injection h
        exact ⟨[], rest, rfl, by simp, hj⟩
      · rw [fm_cons_no_match hj] at h
        obtain ⟨l₁, l₂, hL, h1, h2⟩ := ih h
        exact ⟨j :: l₁, l₂, by simp [hL], by
          intro x hx
          rcases List.mem_cons.mp hx with rfl | hx
          · exact hj
          · exact h1 x hx, h2⟩

theorem fm_some_mem {bufs : List Buf} {L : List Nat} {d bn i : Nat}
    (h : firstMatch bufs L d bn = some i) :
    i ∈ L ∧ bmatch (bufs.getD i buf0) d bn := by
  obtain ⟨l₁, l₂, hL, _, h2⟩ := fm_split h
  exact ⟨by simp [hL], h2⟩

theorem fm_of_split {bufs : List Buf} {l₁ l₂ : List Nat} {d bn i : Nat}
    (h1 : ∀ x ∈ l₁, ¬ bmatch (bufs.getD x buf0) d bn)
    (h2 : bmatch (bufs.getD i buf0) d bn) :
    firstMatch bufs (l₁ ++ i :: l₂) d bn = some i := by
  rw [fm_append _ h1, fm_cons_match h2]

theorem fm_congr {B1 B2 : List Buf} {L : List Nat} {d bn : Nat}
    (h : ∀ x ∈ L, (B1.getD x buf0).dev = (B2.getD x buf0).dev ∧
      (B1.getD x buf0).blockno = (B2.getD x buf0).blockno) :
    firstMatch B1 L d bn = firstMatch B2 L d bn := by
  induction L with
  | nil => rfl
  | cons i rest ih =>
      have hi := h i (by simp)
      have hmatch : bmatch (B1.getD i buf0) d bn ↔ bmatch (B2.getD i buf0) d bn := by
        unfold bmatch; rw [hi.1, hi.2]
      by_cases hc : bmatch (B2.getD i buf0) d bn
      · rw [fm_cons_match (hmatch.mpr hc), fm_cons_match hc]
      · rw [fm_cons_no_match (fun hx => hc (hmatch.mp hx)), fm_cons_no_match hc]
        exact ih (fun x hx => h x (by simp [hx]))

theorem fm_erase {bufs : List Buf} {L : List Nat} {d bn i b : Nat}
    (h : firstMatch bufs L d bn = some i) (hib : i ≠ b) :
    firstMatch bufs (L.erase b) d bn = some i := by
  obtain ⟨l₁, l₂, hL, h1, h2⟩ := fm_split h
  subst hL
  by_cases hb : b ∈ l₁
  · rw [List.erase_append_left _ hb]
    exact fm_of_split (fun x hx => h1 x (List.mem_of_mem_erase hx)) h2
  · rw [List.erase_append_right _ hb, List.erase_cons_tail (by simpa using hib)]
    exact fm_of_split h1 h2

/-! ### Lemmas about the LRU scans -/

theorem lg_nil (bufs : List Buf) (best : Option Nat) (bound : Nat) :
    lruGo bufs [] best bound = best := rfl

theorem lg_cons (bufs : List Buf) (i : Nat) (L : List Nat) (best : Option Nat) (bound : Nat) :
    lruGo bufs (i :: L) best bound =
      if (bufs.getD i buf0).refcnt = 0 ∧ (bufs.getD i buf0).time < bound then
        lruGo bufs L (some i) (bufs.getD i buf0).time
      else lruGo bufs L best bound := rfl

theorem lg_cons_take {bufs : List Buf} {i : Nat} {L : List Nat} {best : Option Nat} {bound : Nat}
    (h : (bufs.getD i buf0).refcnt = 0 ∧ (bufs.getD i buf0).time < bound) :
    lruGo bufs (i :: L) best bound = lruGo bufs L (some i) (bufs.getD i buf0).time := by
  rw [lg_cons, if_pos h]

theorem lg_cons_skip {bufs : List Buf} {i : Nat} {L : List Nat} {best : Option Nat} {bound : Nat}
    (h : ¬ ((bufs.getD i buf0).refcnt = 0 ∧ (bufs.getD i buf0).time < bound)) :
    lruGo bufs (i :: L) best bound = lruGo bufs L best bound := by
  rw [lg_cons, if_neg h]

theorem lg_of_no_free {bufs : List Buf} {L : List Nat} {best : Option Nat} {bound : Nat}
    (h : ∀ x ∈ L, (bufs.getD x buf0).refcnt ≠ 0) :
    lruGo bufs L best bound = best := by
  induction L generalizing best bound with
  | nil => rfl
  | cons i rest ih =>
      rw [lg_cons_skip (fun hc => h i (by simp) hc.1)]
      exact ih (fun x hx => h x (by simp [hx]))

theorem lg_ne_none_of_some {bufs : List Buf} {L : List Nat} {x : Nat} {bound : Nat} :
    lruGo bufs L (some x) bound ≠ none := by
  induction L generalizing x bound with
  | nil => simp [lruGo]
  | cons i rest ih =>
      by_cases h : (bufs.getD i buf0).refcnt = 0 ∧ (bufs.getD i buf0).time < bound
      · rw [lg_cons_take h]; exact ih
      · rw [lg_cons_skip h]; exact ih

theorem lg_ne_none_of_free {bufs : List Buf} {L : List Nat} {best : Option Nat} {bound : Nat}
    (h : ∃ x ∈ L, (bufs.getD x buf0).refcnt = 0 ∧ (bufs.getD x buf0).time < bound) :
    lruGo bufs L best bound ≠ none := by
  induction L generalizing best bound with
  | nil => simp at h
  | cons i rest ih =>
      by_cases hi : (bufs.getD i buf0).refcnt = 0 ∧ (bufs.getD i buf0).time < bound
      · rw [lg_cons_take hi]; exact lg_ne_none_of_some
      · rw [lg_cons_skip hi]
        obtain ⟨x, hx, hfree⟩ := h
        rcases List.mem_cons.mp hx with rfl | hx
        · exact absurd hfree hi
        · exact ih ⟨x, hx, hfree⟩

theorem lg_some_inv {bufs : List Buf} {L : List Nat} {best : Option Nat} {bound b : Nat}
    (h : lruGo bufs L best bound = some b) :
    best = some b ∨
      (b ∈ L ∧ (bufs.getD b buf0).refcnt = 0 ∧ (bufs.getD b buf0).time < bound) := by
  induction L generalizing best bound with
  | nil => exact Or.inl h
  | cons i rest ih =>
      by_cases hi : (bufs.getD i buf0).refcnt = 0 ∧ (bufs.getD i buf0).time < bound
      · rw [lg_cons_take hi] at h
        rcases ih h with heq | ⟨hmem, hfree, ht⟩
        · obtain rfl : i = b := by injection heq
          exact Or.inr ⟨by simp, hi⟩
        · exact Or.inr ⟨by simp [hmem], hfree, lt_trans ht hi.2⟩
      · rw [lg_cons_skip hi] at h
        rcases ih h with heq | ⟨hmem, hfree, ht⟩
        · exact Or.inl heq
        · exact Or.inr ⟨by simp [hmem], hfree, ht⟩

theorem lruScan_some {bufs : List Buf} {L : List Nat} {b : Nat}
    (h : lruScan bufs L = some b) :
    b ∈ L ∧ (bufs.getD b buf0).refcnt = 0 ∧ (bufs.getD b buf0).time < uintMax := by
  rcases lg_some_inv h with heq | hres
  · cases heq
  · exact hres

theorem globalScan_some {bufs : List Buf} {b : Nat} (h : globalScan bufs = some b) :
    b < bufs.length ∧ (bufs.getD b buf0).refcnt = 0 ∧ (bufs.getD b buf0).time < uintMax := by
  rcases lg_some_inv h with heq | ⟨hmem, hrest⟩
  · cases heq
  · exact ⟨List.mem_range.mp hmem, hrest⟩

theorem lg_after {bufs : List Buf} {L : List Nat} {b : Nat}
    (h : ∀ x ∈ L, (bufs.getD x buf0).refcnt = 0 →
      (bufs.getD b buf0).time ≤ (bufs.getD x buf0).time) :
    lruGo bufs L (some b) (bufs.getD b buf0).time = some b := by
  induction L with
  | nil => rfl
  | cons i rest ih =>
      have hskip : ¬ ((bufs.getD i buf0).refcnt = 0 ∧
          (bufs.getD i buf0).time < (bufs.getD b buf0).time) := by
        rintro ⟨hfree, hlt⟩
        exact absurd (h i (by simp) hfree) (not_le.mpr hlt)
      rw [lg_cons_skip hskip]
      exact ih (fun x hx => h x (by simp [hx]))

theorem lg_before {bufs : List Buf} {l₁ : List Nat} {b : Nat} {l₂ : List Nat}
    {best : Option Nat} {bound : Nat}
    (hfree : (bufs.getD b buf0).refcnt = 0)
    (hbound : (bufs.getD b buf0).time < bound)
    (h1 : ∀ x ∈ l₁, (bufs.getD x buf0).refcnt = 0 →
      (bufs.getD b buf0).time < (bufs.getD x buf0).time)
    (h2 : ∀ x ∈ l₂, (bufs.getD x buf0).refcnt = 0 →
      (bufs.getD b buf0).time ≤ (bufs.getD x buf0).time) :
    lruGo bufs (l₁ ++ b :: l₂) best bound = some b := by
  induction l₁ generalizing best bound with
  | nil =>
      rw [List.nil_append, lg_cons_take ⟨hfree, hbound⟩]
      exact lg_after h2
  | cons i rest ih =>
      by_cases hi : (bufs.getD i buf0).refcnt = 0 ∧ (bufs.getD i buf0).time < bound
      · rw [List.cons_append, lg_cons_take hi]
        exact ih (h1 i (by simp) hi.1) (fun x hx => h1 x (by simp [hx]))
      · rw [List.cons_append, lg_cons_skip hi]
        exact ih hbound (fun x hx => h1 x (by simp [hx]))

/-! ### Field behaviour of the individual operations -/

theorem bucket_bumpRef (i : Nat) (s : State) : (bumpRef i s).bucket = s.bucket := rfl

theorem bucket_reassign (d bn b : Nat) (s : State) : (reassign d bn b s).bucket = s.bucket := rfl

theorem bucket_setValid (i : Nat) (s : State) : (setValid i s).bucket = s.bucket := rfl

theorem bucket_bpin (i : Nat) (s : State) : (bpin i s).bucket = s.bucket := rfl

theorem bucket_bunpin (i : Nat) (s : State) : (bunpin i s).bucket = s.bucket := rfl

theorem bucket_tick (s : State) : (tick s).bucket = s.bucket := rfl

theorem buf_migrate (b no2 no : Nat) (s : State) : (migrate b no2 no s).buf = s.buf := rfl

theorem buf_tick (s : State) : (tick s).buf = s.buf := rfl

theorem len_bumpRef (i : Nat) (s : State) : (bumpRef i s).buf.length = s.buf.length := by
  simp [bumpRef]

theorem len_reassign (d bn b : Nat) (s : State) :
    (reassign d bn b s).buf.length = s.buf.length := by
  simp [reassign]

theorem len_setValid (i : Nat) (s : State) : (setValid i s).buf.length = s.buf.length := by
  simp [setValid]

theorem len_bpin (i : Nat) (s : State) : (bpin i s).buf.length = s.buf.length := by
  simp [bpin]

theorem len_bunpin (i : Nat) (s : State) : (bunpin i s).buf.length = s.buf.length := by
  simp [bunpin]

theorem getBuf_bumpRef_self {i : Nat} {s : State} (h : i < s.buf.length) :
    getBuf (bumpRef i s) i =
      { getBuf s i with refcnt := (getBuf s i).refcnt + 1, locked := true } := by
  simp only [bumpRef, getBuf]
  exact getD_set_self _ _ _ _ h

theorem getBuf_bumpRef_ne {i j : Nat} {s : State} (h : i ≠ j) :
    getBuf (bumpRef i s) j = getBuf s j := by
  simp only [bumpRef, getBuf]
  exact getD_set_ne _ _ _ _ _ h

theorem getBuf_reassign_self {d bn b : Nat} {s : State} (h : b < s.buf.length) :
    getBuf (reassign d bn b s) b =
      { getBuf s b with dev := d, blockno := bn, valid := false, refcnt := 1, locked := true } := by
  simp only [reassign, getBuf]
  exact getD_set_self _ _ _ _ h

theorem getBuf_reassign_ne {d bn b j : Nat} {s : State} (h : b ≠ j) :
    getBuf (reassign d bn b s) j = getBuf s j := by
  simp only [reassign, getBuf]
  exact getD_set_ne _ _ _ _ _ h

theorem getBuf_setValid_self {i : Nat} {s : State} (h : i < s.buf.length) :
    getBuf (setValid i s) i = { getBuf s i with valid := true } := by
  simp only [setValid, getBuf]
  exact getD_set_self _ _ _ _ h

theorem getBuf_setValid_ne {i j : Nat} {s : State} (h : i ≠ j) :
    getBuf (setValid i s) j = getBuf s j := by
  simp only [setValid, getBuf]
  exact getD_set_ne _ _ _ _ _ h

theorem getBuf_bpin_self {i : Nat} {s : State} (h : i < s.buf.length) :
    getBuf (bpin i s) i = { getBuf s i with refcnt := (getBuf s i).refcnt + 1 } := by
  simp only [bpin, getBuf]
  exact getD_set_self _ _ _ _ h

theorem getBuf_bpin_ne {i j : Nat} {s : State} (h : i ≠ j) :
    getBuf (bpin i s) j = getBuf s j := by
  simp only [bpin, getBuf]
  exact getD_set_ne _ _ _ _ _ h

theorem getBuf_bunpin_self {i : Nat} {s : State} (h : i < s.buf.length) :
    getBuf (bunpin i s) i = { getBuf s i with refcnt := (getBuf s i).refcnt - 1 } := by
  simp only [bunpin, getBuf]
  exact getD_set_self _ _ _ _ h

theorem getBuf_bunpin_ne {i j : Nat} {s : State} (h : i ≠ j) :
    getBuf (bunpin i s) j = getBuf s j := by
  simp only [bunpin, getBuf]
  exact getD_set_ne _ _ _ _ _ h

theorem getBuf_migrate (b no2 no j : Nat) (s : State) :
    getBuf (migrate b no2 no s) j = getBuf s j := rfl

theorem getBuf_tick (j : Nat) (s : State) : getBuf (tick s) j = getBuf s j := rfl

theorem brelse_eq_none_iff (i : Nat) (s : State) :
    brelse i s = none ↔ (getBuf s i).locked = false := by
  unfold brelse
  by_cases h : (getBuf s i).locked = true
  · rw [if_pos h]
    exact iff_of_false (by simp) (by simp [h])
  · rw [if_neg h]
    simp only [Bool.not_eq_true] at h
    simp [h]

theorem brelse_eq_some {i : Nat} {s t : State} (h : brelse i s = some t) :
    (getBuf s i).locked = true ∧ t = brelseBody i s := by
  unfold brelse at h
  by_cases hl : (getBuf s i).locked = true
  · rw [if_pos hl] at h
    injection h with h1
    exact ⟨hl, h1.symm⟩
  · rw [if_neg hl] at h
    cases h

theorem len_brelseBody (i : Nat) (s : State) :
    (brelseBody i s).buf.length = s.buf.length := by
  simp [brelseBody]

theorem bucket_brelseBody (i : Nat) (s : State) : (brelseBody i s).bucket = s.bucket := rfl

theorem ticks_brelseBody (i : Nat) (s : State) : (brelseBody i s).ticks = s.ticks := rfl

theorem getBuf_brelseBody_self {i : Nat} {s : State} (h : i < s.buf.length) :
    getBuf (brelseBody i s) i =
      { getBuf s i with
          locked := false,
          refcnt := (getBuf s i).refcnt - 1,
          time := if (getBuf s i).refcnt - 1 = 0 then s.ticks else (getBuf s i).time } := by
  simp only [brelseBody, getBuf]
  exact getD_set_self _ _ _ _ h

theorem getBuf_brelseBody_ne {i j : Nat} {s : State} (h : i ≠ j) :
    getBuf (brelseBody i s) j = getBuf s j := by
  simp only [brelseBody, getBuf]
  exact getD_set_ne _ _ _ _ _ h

theorem bwrite_eq_some {i : Nat} {s t : State} (h : bwrite i s = some t) :
    (getBuf s i).locked = true ∧ t = s := by
  unfold bwrite at h
  by_cases hl : (getBuf s i).locked = true
  · rw [if_pos hl] at h
    injection h with h1
    exact ⟨hl, h1.symm⟩
  · rw [if_neg hl] at h
    cases h

theorem bwrite_eq_none_iff (i : Nat) (s : State) :
    bwrite i s = none ↔ (getBuf s i).locked = false := by
  unfold bwrite
  by_cases h : (getBuf s i).locked = true
  · rw [if_pos h]
    exact iff_of_false (by simp) (by simp [h])
  · rw [if_neg h]
    simp only [Bool.not_eq_true] at h
    simp [h]

theorem bucket_len_migrate (b no2 no : Nat) (s : State) :
    (migrate b no2 no s).bucket.length = s.bucket.length := by
  simp [migrate]

theorem bktAt_migrate_tgt {b no2 no : Nat} {s : State}
    (hlen : s.bucket.length = N) (hno : no < N) (hne : no ≠ no2) :
    bktAt (migrate b no2 no s) no = b :: bktAt s no := by
  unfold migrate bktAt
  rw [getD_set_self _ _ _ _ (by rw [List.length_set, hlen]; exact hno)]
  rw [getD_set_ne _ _ _ _ _ (fun hx => hne hx.symm)]

theorem bktAt_migrate_src {b no2 no : Nat} {s : State}
    (hlen : s.bucket.length = N) (hno2 : no2 < N) (hne : no ≠ no2) :
    bktAt (migrate b no2 no s) no2 = (bktAt s no2).erase b := by
  unfold migrate bktAt
  rw [getD_set_ne _ _ _ _ _ hne]
  rw [getD_set_self _ _ _ _ (by rw [hlen]; exact hno2)]

theorem bktAt_migrate_other {b no2 no k : Nat} {s : State}
    (h1 : no ≠ k) (h2 : no2 ≠ k) :
    bktAt (migrate b no2 no s) k = bktAt s k := by
  unfold migrate bktAt
  rw [getD_set_ne _ _ _ _ _ h1, getD_set_ne _ _ _ _ _ h2]

theorem nPos : 0 < N := by norm_num [N]

theorem mod_n_lt (a : Nat) : a % N < N := Nat.mod_lt _ nPos

/-! ### Characterisation of `binit` -/

theorem binit_eq_binitP (n : Nat) : binit n = (binitP n n).1 := rfl

theorem binitP_succ (n t : Nat) : binitP n (t + 1) = binitStep (binitP n t) t := by
  unfold binitP
  rw [List.range_succ, List.foldl_append]
  rfl

theorem mod_mod_n (a : Nat) : a % N % N = a % N := Nat.mod_mod_of_dvd a dvd_rfl

theorem binit_aux (n : Nat) : ∀ t, t ≤ n →
    (binitP n t).2 = t % N ∧
    (binitP n t).1.ticks = 0 ∧
    (binitP n t).1.buf.length = n ∧
    (binitP n t).1.bucket.length = N ∧
    (∀ i, i < t → getBuf (binitP n t).1 i = { buf0 with blockno := i % N }) ∧
    (∀ i, t ≤ i → getBuf (binitP n t).1 i = buf0) ∧
    (∀ k, ∀ i ∈ bktAt (binitP n t).1 k, i < t ∧ i % N = k) ∧
    (∀ i, i < t → i ∈ bktAt (binitP n t).1 (i % N)) ∧
    (∀ k, (bktAt (binitP n t).1 k).Nodup) := by
  intro t
  induction t with
  | zero =>
      intro _
      refine ⟨rfl, rfl, by simp [binitP, state0], by simp [binitP, state0], ?_, ?_, ?_, ?_, ?_⟩
      · intro i hi; cases hi
      · intro i _
        show (List.replicate n buf0).getD i buf0 = buf0
        exact getD_replicate n i buf0
      · intro k i hi
        have hk : bktAt (state0 n) k = [] := getD_replicate N k []
        rw [show (binitP n 0).1 = state0 n from rfl, hk] at hi
        cases hi
      · intro i hi; cases hi
      · intro k
        have hk : bktAt (state0 n) k = [] := getD_replicate N k []
        rw [show (binitP n 0).1 = state0 n from rfl, hk]
        exact List.nodup_nil
  | succ t ih =>
      intro ht
      obtain ⟨h2, hticks, hblen, hklen, hlt, hge, hmem, hin, hnd⟩ := ih (Nat.le_of_succ_le ht)
      have htn : t < n := ht
      have hb_self : getBuf (binitStep (binitP n t) t).1 t =
          { getBuf (binitP n t).1 t with blockno := t % N } := by
        unfold binitStep
        rw [h2]
        show ((binitP n t).1.buf.set t _).getD t buf0 = _
        exact getD_set_self _ _ _ _ (by rw [hblen]; exact htn)
      have hb_ne : ∀ i, t ≠ i →
          getBuf (binitStep (binitP n t) t).1 i = getBuf (binitP n t).1 i := by
        intro i hne
        unfold binitStep
        show ((binitP n t).1.buf.set t _).getD i buf0 = _
        exact getD_set_ne _ _ _ _ _ hne
      have hk_self : bktAt (binitStep (binitP n t) t).1 (t % N) =
          t :: bktAt (binitP n t).1 (t % N) := by
        unfold binitStep
        rw [h2]
        show ((binitP n t).1.bucket.set (t % N) _).getD (t % N) [] = _
        exact getD_set_self _ _ _ _ (by rw [hklen]; exact mod_n_lt t)
      have hk_ne : ∀ k, t % N ≠ k →
          bktAt (binitStep (binitP n t) t).1 k = bktAt (binitP n t).1 k := by
        intro k hne
        unfold binitStep
        rw [h2]
        show ((binitP n t).1.bucket.set (t % N) _).getD k [] = _
        exact getD_set_ne _ _ _ _ _ hne
      have hsnd : (binitStep (binitP n t) t).2 = (t % N + 1) % N := by
        unfold binitStep
        rw [h2]
      have hlen1 : (binitStep (binitP n t) t).1.buf.length = n := by
        unfold binitStep
        show ((binitP n t).1.buf.set t _).length = n
        rw [List.length_set]
        exact hblen
      have hlen2 : (binitStep (binitP n t) t).1.bucket.length = N := by
        unfold binitStep
        show ((binitP n t).1.bucket.set _ _).length = N
        rw [List.length_set]
        exact hklen
      have hticks1 : (binitStep (binitP n t) t).1.ticks = 0 := by
        unfold binitStep
        exact hticks
      have hmodsucc : (t % N + 1) % N = (t + 1) % N := by
        conv_rhs => rw [Nat.add_mod]
        norm_num [N]
      rw [binitP_succ]
      refine ⟨by rw [hsnd]; exact hmodsucc, hticks1, hlen1, hlen2, ?_, ?_, ?_, ?_, ?_⟩
      · intro i hi
        rcases Nat.lt_succ_iff_lt_or_eq.mp hi with hi | heq
        · rw [hb_ne i (Nat.ne_of_gt hi)]
          exact hlt i hi
        · rw [heq, hb_self, hge t le_rfl]
      · intro i hi
        rw [hb_ne i (by omega)]
        exact hge i (by omega)
      · intro k i hi
        by_cases hk : t % N = k
        · subst hk
          rw [hk_self] at hi
          rcases List.mem_cons.mp hi with rfl | hi
          · exact ⟨Nat.lt_succ_self i, rfl⟩
          · obtain ⟨ha, hb⟩ := hmem _ i hi
            exact ⟨Nat.lt_succ_of_lt ha, hb⟩
        · rw [hk_ne k hk] at hi
          obtain ⟨ha, hb⟩ := hmem k i hi
          exact ⟨Nat.lt_succ_of_lt ha, hb⟩
      · intro i hi
        rcases Nat.lt_succ_iff_lt_or_eq.mp hi with hi | heq
        · by_cases hk : i % N = t % N
          · rw [hk, hk_self]
            exact List.mem_cons_of_mem _ (by rw [← hk]; exact hin i hi)
          · rw [hk_ne (i % N) (fun hx => hk hx.symm)]
            exact hin i hi
        · rw [heq, hk_self]
          exact List.mem_cons_self t _
      · intro k
        by_cases hk : t % N = k
        · subst hk
          rw [hk_self]
          refine List.Nodup.cons ?_ (hnd (t % N))
          intro hmem1
          exact absurd (hmem _ t hmem1).1 (lt_irrefl t)
        · rw [hk_ne k hk]
          exact hnd k

theorem inv_binit (n : Nat) : CacheInv (binit n) := by
  obtain ⟨_, _, hblen, hklen, hlt, _, hmem, hin, hnd⟩ := binit_aux n n le_rfl
  rw [binit_eq_binitP]
  refine ⟨hklen, ?_, ?_, ?_, fun k _ => hnd k, ?_⟩
  · intro k _ i hi
    rw [hblen]
    exact (hmem k i hi).1
  · intro k _ i hi
    obtain ⟨h1, h2⟩ := hmem k i hi
    rw [hlt i h1]
    show i % N % N = k
    rw [mod_mod_n]
    exact h2
  · intro i hi
    rw [hblen] at hi
    rw [hlt i hi]
    show i ∈ bktAt (binitP n n).1 (i % N % N)
    rw [mod_mod_n]
    exact hin i hi
  · intro i hi hheld
    rw [hblen] at hi
    rw [hlt i hi] at hheld
    rcases hheld with hr | hl
    · exact absurd rfl hr
    · cases hl

/-! ### Case analysis of `bget` -/

theorem bget_hit {d bn m : Nat} {s : State}
    (h : firstMatch s.buf (bktAt s (bn % N)) d bn = some m) :
    bget d bn s = some (m, bumpRef m s) := by
  simp only [bget]
  rw [h]

theorem bget_local {d bn b : Nat} {s : State}
    (h1 : firstMatch s.buf (bktAt s (bn % N)) d bn = none)
    (h2 : lruScan s.buf (bktAt s (bn % N)) = some b) :
    bget d bn s = some (b, reassign d bn b s) := by
  simp only [bget]
  rw [h1, h2]

theorem bget_global {d bn b : Nat} {s : State}
    (h1 : firstMatch s.buf (bktAt s (bn % N)) d bn = none)
    (h2 : lruScan s.buf (bktAt s (bn % N)) = none)
    (h3 : globalScan s.buf = some b) :
    bget d bn s = some (b, reassign d bn b (migrate b ((getBuf s b).blockno % N) (bn % N) s)) := by
  simp only [bget]
  rw [h1, h2, h3]

theorem bget_none {d bn : Nat} {s : State}
    (h1 : firstMatch s.buf (bktAt s (bn % N)) d bn = none)
    (h2 : lruScan s.buf (bktAt s (bn % N)) = none)
    (h3 : globalScan s.buf = none) :
    bget d bn s = none := by
  simp only [bget]
  rw [h1, h2, h3]

theorem bget_some_elim {d bn i : Nat} {s t : State} (h : bget d bn s = some (i, t)) :
    (firstMatch s.buf (bktAt s (bn % N)) d bn = some i ∧ t = bumpRef i s) ∨
    (firstMatch s.buf (bktAt s (bn % N)) d bn = none ∧
      lruScan s.buf (bktAt s (bn % N)) = some i ∧ t = reassign d bn i s) ∨
    (firstMatch s.buf (bktAt s (bn % N)) d bn = none ∧
      lruScan s.buf (bktAt s (bn % N)) = none ∧ globalScan s.buf = some i ∧
      t = reassign d bn i (migrate i ((getBuf s i).blockno % N) (bn % N) s)) := by
  cases hfm : firstMatch s.buf (bktAt s (bn % N)) d bn with
  | some m =>
      rw [bget_hit hfm] at h
      injection h with h1
      injection h1 with h2 h3
      refine Or.inl ⟨?_, ?_⟩
      · rw [h2]
      · rw [← h2, ← h3]
  | none =>
      cases hls : lruScan s.buf (bktAt s (bn % N)) with
      | some m =>
          rw [bget_local hfm hls] at h
          injection h with h1
          injection h1 with h2 h3
          refine Or.inr (Or.inl ⟨rfl, ?_, ?_⟩)
          · rw [h2]
          · rw [← h2, ← h3]
      | none =>
          cases hg : globalScan s.buf with
          | some m =>
              rw [bget_global hfm hls hg] at h
              injection h with h1
              injection h1 with h2 h3
              refine Or.inr (Or.inr ⟨rfl, rfl, ?_, ?_⟩)
              · rw [h2]
              · rw [← h2, ← h3]
          | none =>
              rw [bget_none hfm hls hg] at h
              cases h

/-! ### Out-of-range behaviour of the slot updates (the C code never indexes
out of range; these lemmas make the Lean functions total without cases). -/

theorem getBuf_setValid_oob {i : Nat} {s : State} (h : ¬ i < s.buf.length) :
    getBuf (setValid i s) i = getBuf s i := by
  simp only [setValid, getBuf]
  rw [set_oob _ _ _ (by omega)]

theorem getBuf_bpin_oob {i : Nat} {s : State} (h : ¬ i < s.buf.length) :
    getBuf (bpin i s) i = getBuf s i := by
  simp only [bpin, getBuf]
  rw [set_oob _ _ _ (by omega)]

theorem getBuf_bunpin_oob {i : Nat} {s : State} (h : ¬ i < s.buf.length) :
    getBuf (bunpin i s) i = getBuf s i := by
  simp only [bunpin, getBuf]
  rw [set_oob _ _ _ (by omega)]

theorem getBuf_brelseBody_oob {i : Nat} {s : State} (h : ¬ i < s.buf.length) :
    getBuf (brelseBody i s) i = getBuf s i := by
  simp only [brelseBody, getBuf]
  rw [set_oob _ _ _ (by omega)]

/-! ### Preservation of the invariant -/

theorem inv_preserve {s T : State} (hInv : CacheInv s)
    (hbk : T.bucket = s.bucket)
    (hbl : T.buf.length = s.buf.length)
    (hid : ∀ j, (getBuf T j).dev = (getBuf s j).dev ∧
      (getBuf T j).blockno = (getBuf s j).blockno)
    (hhl : ∀ j, ((getBuf T j).refcnt ≠ 0 ∨ (getBuf T j).locked = true) →
      ((getBuf s j).refcnt ≠ 0 ∨ (getBuf s j).locked = true)) :
    CacheInv T := by
  obtain ⟨hlen, hbound, hcong, hmemin, hnd, hheld⟩ := hInv
  have hbkt : ∀ k, bktAt T k = bktAt s k := fun k => by unfold bktAt; rw [hbk]
  have hfmeq : ∀ L d bn, firstMatch T.buf L d bn = firstMatch s.buf L d bn :=
    fun L d bn => fm_congr (fun x _ => hid x)
  refine ⟨by rw [hbk]; exact hlen, ?_, ?_, ?_, ?_, ?_⟩
  · intro k hk i hi
    rw [hbl]
    rw [hbkt k] at hi
    exact hbound k hk i hi
  · intro k hk i hi
    rw [(hid i).2]
    rw [hbkt k] at hi
    exact hcong k hk i hi
  · intro i hi
    rw [hbl] at hi
    rw [(hid i).2, hbkt _]
    exact hmemin i hi
  · intro k hk
    rw [hbkt k]
    exact hnd k hk
  · intro i hi hh
    rw [hbl] at hi
    rw [(hid i).1, (hid i).2, hbkt _, hfmeq]
    exact hheld i hi (hhl i hh)

theorem inv_setValid {i : Nat} {s : State} (hInv : CacheInv s) : CacheInv (setValid i s) := by
  refine inv_preserve hInv (bucket_setValid i s) (len_setValid i s) ?_ ?_
  · intro j
    by_cases hj : i = j
    · subst hj
      by_cases hl : i < s.buf.length
      · rw [getBuf_setValid_self hl]; exact ⟨rfl, rfl⟩
      · rw [getBuf_setValid_oob hl]; exact ⟨rfl, rfl⟩
    · rw [getBuf_setValid_ne hj]; exact ⟨rfl, rfl⟩
  · intro j
    by_cases hj : i = j
    · subst hj
      by_cases hl : i < s.buf.length
      · rw [getBuf_setValid_self hl]; exact id
      · rw [getBuf_setValid_oob hl]; exact id
    · rw [getBuf_setValid_ne hj]; exact id

theorem inv_tick {s : State} (hInv : CacheInv s) : CacheInv (tick s) :=
  inv_preserve hInv rfl rfl (fun _ => ⟨rfl, rfl⟩) (fun _ => id)

theorem inv_bpin {i : Nat} {s : State} (hg : (getBuf s i).locked = true)
    (hInv : CacheInv s) : CacheInv (bpin i s) := by
  refine inv_preserve hInv (bucket_bpin i s) (len_bpin i s) ?_ ?_
  · intro j
    by_cases hj : i = j
    · subst hj
      by_cases hl : i < s.buf.length
      · rw [getBuf_bpin_self hl]; exact ⟨rfl, rfl⟩
      · rw [getBuf_bpin_oob hl]; exact ⟨rfl, rfl⟩
    · rw [getBuf_bpin_ne hj]; exact ⟨rfl, rfl⟩
  · intro j
    by_cases hj : i = j
    · subst hj
      intro _
      exact Or.inr hg
    · rw [getBuf_bpin_ne hj]; exact id

theorem inv_bunpin {i : Nat} {s : State} (hg : (getBuf s i).refcnt ≠ 0)
    (hInv : CacheInv s) : CacheInv (bunpin i s) := by
  refine inv_preserve hInv (bucket_bunpin i s) (len_bunpin i s) ?_ ?_
  · intro j
    by_cases hj : i = j
    · subst hj
      by_cases hl : i < s.buf.length
      · rw [getBuf_bunpin_self hl]; exact ⟨rfl, rfl⟩
      · rw [getBuf_bunpin_oob hl]; exact ⟨rfl, rfl⟩
    · rw [getBuf_bunpin_ne hj]; exact ⟨rfl, rfl⟩
  · intro j
    by_cases hj : i = j
    · subst hj
      intro _
      exact Or.inl hg
    · rw [getBuf_bunpin_ne hj]; exact id

theorem inv_brelse {i : Nat} {s t : State} (h : brelse i s = some t) :
    CacheInv s → CacheInv t := by
  intro hInv
  obtain ⟨hl, rfl⟩ := brelse_eq_some h
  refine inv_preserve hInv (bucket_brelseBody i s) (len_brelseBody i s) ?_ ?_
  · intro j
    by_cases hj : i = j
    · subst hj
      by_cases hil : i < s.buf.length
      · rw [getBuf_brelseBody_self hil]; exact ⟨rfl, rfl⟩
      · rw [getBuf_brelseBody_oob hil]; exact ⟨rfl, rfl⟩
    · rw [getBuf_brelseBody_ne hj]; exact ⟨rfl, rfl⟩
  · intro j
    by_cases hj : i = j
    · subst hj
      intro _
      exact Or.inr hl
    · rw [getBuf_brelseBody_ne hj]; exact id

theorem bktAt_reassign (d bn b k : Nat) (s : State) :
    bktAt (reassign d bn b s) k = bktAt s k := rfl

theorem inv_hit {d bn m : Nat} {s : State} (hInv : CacheInv s)
    (hfm : firstMatch s.buf (bktAt s (bn % N)) d bn = some m) :
    CacheInv (bumpRef m s) := by
  obtain ⟨hlen, hbound, hcong, hmemin, hnd, hheld⟩ := hInv
  have hmem1 := (fm_some_mem hfm).1
  have hmatch := (fm_some_mem hfm).2
  have hmlen : m < s.buf.length := hbound _ (mod_n_lt bn) m hmem1
  have hid : ∀ j, (getBuf (bumpRef m s) j).dev = (getBuf s j).dev ∧
      (getBuf (bumpRef m s) j).blockno = (getBuf s j).blockno := by
    intro j
    by_cases hj : m = j
    · subst hj
      rw [getBuf_bumpRef_self hmlen]
      exact ⟨rfl, rfl⟩
    · rw [getBuf_bumpRef_ne hj]
      exact ⟨rfl, rfl⟩
  have hfmeq : ∀ L d1 b1, firstMatch (bumpRef m s).buf L d1 b1 = firstMatch s.buf L d1 b1 :=
    fun L d1 b1 => fm_congr (fun x _ => hid x)
  refine ⟨hlen, ?_, ?_, ?_, hnd, ?_⟩
  · intro k hk i hi
    rw [len_bumpRef]
    exact hbound k hk i hi
  · intro k hk i hi
    rw [(hid i).2]
    exact hcong k hk i hi
  · intro i hi
    rw [len_bumpRef] at hi
    rw [(hid i).2]
    exact hmemin i hi
  · intro i hi hh
    rw [len_bumpRef] at hi
    rw [(hid i).1, (hid i).2, hfmeq]
    by_cases him : m = i
    · subst him
      have hd : (getBuf s m).dev = d := hmatch.1
      have hb : (getBuf s m).blockno = bn := hmatch.2
      rw [hd, hb]
      exact hfm
    · have hh2 : (getBuf s i).refcnt ≠ 0 ∨ (getBuf s i).locked = true := by
        rw [getBuf_bumpRef_ne him] at hh
        exact hh
      exact hheld i hi hh2

theorem inv_local {d bn b : Nat} {s : State} (hInv : CacheInv s)
    (hfm : firstMatch s.buf (bktAt s (bn % N)) d bn = none)
    (hls : lruScan s.buf (bktAt s (bn % N)) = some b) :
    CacheInv (reassign d bn b s) := by
  obtain ⟨hlen, hbound, hcong, hmemin, hnd, hheld⟩ := hInv
  obtain ⟨hbmem, hbfree, hbtime⟩ := lruScan_some hls
  have hblen2 : b < s.buf.length := hbound _ (mod_n_lt bn) b hbmem
  have hnew : getBuf (reassign d bn b s) b =
      { getBuf s b with dev := d, blockno := bn, valid := false, refcnt := 1, locked := true } :=
    getBuf_reassign_self hblen2
  have hnewD : (reassign d bn b s).buf.getD b buf0 =
      { getBuf s b with dev := d, blockno := bn, valid := false, refcnt := 1, locked := true } :=
    hnew
  have hold : ∀ j, b ≠ j → getBuf (reassign d bn b s) j = getBuf s j :=
    fun j hj => getBuf_reassign_ne hj
  have holdD : ∀ j, b ≠ j → (reassign d bn b s).buf.getD j buf0 = s.buf.getD j buf0 :=
    fun j hj => hold j hj
  have hnomatch : ∀ x ∈ bktAt s (bn % N), ¬ bmatch (s.buf.getD x buf0) d bn :=
    (fm_none_iff _ _ _ _).mp hfm
  refine ⟨hlen, ?_, ?_, ?_, hnd, ?_⟩
  · intro k hk i hi
    rw [len_reassign]
    exact hbound k hk i hi
  · intro k hk i hi
    by_cases hbi : b = i
    · subst hbi
      rw [hnew]
      show bn % N = k
      have h1 : (getBuf s b).blockno % N = k := hcong k hk b hi
      have h2 : (getBuf s b).blockno % N = bn % N := hcong _ (mod_n_lt bn) b hbmem
      rw [← h1, h2]
    · rw [hold i hbi]
      exact hcong k hk i hi
  · intro i hi
    rw [len_reassign] at hi
    by_cases hbi : b = i
    · subst hbi
      rw [hnew]
      show b ∈ bktAt (reassign d bn b s) (bn % N)
      exact hbmem
    · rw [hold i hbi]
      exact hmemin i hi
  · intro i hi hh
    rw [len_reassign] at hi
    by_cases hbi : b = i
    · subst hbi
      rw [hnew]
      show firstMatch (reassign d bn b s).buf (bktAt s (bn % N)) d bn = some b
      obtain ⟨l₁, l₂, hsp⟩ := List.append_of_mem hbmem
      have hndl : (bktAt s (bn % N)).Nodup := hnd _ (mod_n_lt bn)
      have hbl1 : b ∉ l₁ := by
        rw [hsp] at hndl
        intro hmem2
        exact (List.disjoint_of_nodup_append hndl) hmem2 (by simp)
      rw [hsp]
      apply fm_of_split
      · intro x hx
        have hxb : b ≠ x := fun he => hbl1 (he ▸ hx)
        rw [holdD x hxb]
        exact hnomatch x (by rw [hsp]; exact List.mem_append_left _ hx)
      · rw [hnewD]
        exact ⟨rfl, rfl⟩
    · have hh2 : (getBuf s i).refcnt ≠ 0 ∨ (getBuf s i).locked = true := by
        rw [hold i hbi] at hh
        exact hh
      have hfi := hheld i hi hh2
      rw [hold i hbi]
      show firstMatch (reassign d bn b s).buf (bktAt s ((getBuf s i).blockno % N))
        (getBuf s i).dev (getBuf s i).blockno = some i
      obtain ⟨l₁, l₂, hsp, hpre, hmt⟩ := fm_split hfi
      rw [hsp]
      apply fm_of_split
      · intro x hx
        by_cases hxb : b = x
        · subst hxb
          rw [hnewD]
          intro hcon
          have hcd : d = (getBuf s i).dev := hcon.1
          have hcb : bn = (getBuf s i).blockno := hcon.2
          have hiin : i ∈ bktAt s (bn % N) := by
            have hx2 := hmemin i hi
            rw [← hcb] at hx2
            exact hx2
          exact hnomatch i hiin ⟨hcd.symm, hcb.symm⟩
        · rw [holdD x hxb]
          exact hpre x hx
      · rw [holdD i hbi]
        exact hmt

theorem inv_global {d bn b : Nat} {s : State} (hInv : CacheInv s)
    (hfm : firstMatch s.buf (bktAt s (bn % N)) d bn = none)
    (hls : lruScan s.buf (bktAt s (bn % N)) = none)
    (hg : globalScan s.buf = some b) :
    CacheInv (reassign d bn b (migrate b ((getBuf s b).blockno % N) (bn % N) s)) := by
  obtain ⟨hlen, hbound, hcong, hmemin, hnd, hheld⟩ := hInv
  obtain ⟨hblen2, hbfree, hbtime⟩ := globalScan_some hg
  have hbin : b ∈ bktAt s ((getBuf s b).blockno % N) := hmemin b hblen2
  have hnotin : b ∉ bktAt s (bn % N) := fun hmem1 =>
    lg_ne_none_of_free ⟨b, hmem1, hbfree, hbtime⟩ hls
  have hne : bn % N ≠ (getBuf s b).blockno % N := by
    intro he
    rw [← he] at hbin
    exact hnotin hbin
  have hkt : bktAt (migrate b ((getBuf s b).blockno % N) (bn % N) s) (bn % N) =
      b :: bktAt s (bn % N) :=
    bktAt_migrate_tgt hlen (mod_n_lt bn) hne
  have hks : bktAt (migrate b ((getBuf s b).blockno % N) (bn % N) s)
      ((getBuf s b).blockno % N) = (bktAt s ((getBuf s b).blockno % N)).erase b :=
    bktAt_migrate_src hlen (mod_n_lt _) hne
  have hko : ∀ k, bn % N ≠ k → (getBuf s b).blockno % N ≠ k →
      bktAt (migrate b ((getBuf s b).blockno % N) (bn % N) s) k = bktAt s k :=
    fun k h1 h2 => bktAt_migrate_other h1 h2
  have hnew : getBuf (reassign d bn b (migrate b ((getBuf s b).blockno % N) (bn % N) s)) b =
      { getBuf s b with dev := d, blockno := bn, valid := false, refcnt := 1, locked := true } :=
    getBuf_reassign_self hblen2
  have hnewD : (reassign d bn b (migrate b ((getBuf s b).blockno % N) (bn % N) s)).buf.getD
      b buf0 =
      { getBuf s b with dev := d, blockno := bn, valid := false, refcnt := 1, locked := true } :=
    hnew
  have hold : ∀ j, b ≠ j →
      getBuf (reassign d bn b (migrate b ((getBuf s b).blockno % N) (bn % N) s)) j =
        getBuf s j :=
    fun j hj => getBuf_reassign_ne hj
  have holdD : ∀ j, b ≠ j →
      (reassign d bn b (migrate b ((getBuf s b).blockno % N) (bn % N) s)).buf.getD j buf0 =
        s.buf.getD j buf0 :=
    fun j hj => hold j hj
  have hnomatch : ∀ x ∈ bktAt s (bn % N), ¬ bmatch (s.buf.getD x buf0) d bn :=
    (fm_none_iff _ _ _ _).mp hfm
  have hnds : (bktAt s ((getBuf s b).blockno % N)).Nodup := hnd _ (mod_n_lt _)
  refine ⟨?_, ?_, ?_, ?_, ?_, ?_⟩
  · show (migrate b ((getBuf s b).blockno % N) (bn % N) s).bucket.length = N
    rw [bucket_len_migrate]
    exact hlen
  · intro k hk i hi
    rw [len_reassign]
    rw [bktAt_reassign] at hi
    show i < s.buf.length
    by_cases hk1 : bn % N = k
    · subst hk1
      rw [hkt] at hi
      rcases List.mem_cons.mp hi with rfl | hi2
      · exact hblen2
      · exact hbound _ hk i hi2
    · by_cases hk2 : (getBuf s b).blockno % N = k
      · subst hk2
        rw [hks] at hi
        exact hbound _ hk i (List.mem_of_mem_erase hi)
      · rw [hko k hk1 hk2] at hi
        exact hbound k hk i hi
  · intro k hk i hi
    rw [bktAt_reassign] at hi
    by_cases hbi : b = i
    · subst hbi
      rw [hnew]
      show bn % N = k
      by_cases hk1 : bn % N = k
      · exact hk1
      · by_cases hk2 : (getBuf s b).blockno % N = k
        · subst hk2
          rw [hks] at hi
          exact absurd hi ((List.Nodup.mem_erase_iff hnds).not.mpr (by simp))
        · rw [hko k hk1 hk2] at hi
          exact absurd (hcong k hk b hi) hk2
    · rw [hold i hbi]
      by_cases hk1 : bn % N = k
      · subst hk1
        rw [hkt] at hi
        rcases List.mem_cons.mp hi with heq | hi2
        · exact absurd heq.symm hbi
        · exact hcong _ hk i hi2
      · by_cases hk2 : (getBuf s b).blockno % N = k
        · subst hk2
          rw [hks] at hi
          exact hcong _ hk i (List.mem_of_mem_erase hi)
        · rw [hko k hk1 hk2] at hi
          exact hcong k hk i hi
  · intro i hi
    rw [len_reassign] at hi
    rw [bktAt_reassign]
    by_cases hbi : b = i
    · subst hbi
      rw [hnew]
      show b ∈ bktAt (migrate b ((getBuf s b).blockno % N) (bn % N) s) (bn % N)
      rw [hkt]
      exact List.mem_cons_self b _
    · rw [hold i hbi]
      by_cases hk1 : bn % N = (getBuf s i).blockno % N
      · rw [← hk1, hkt]
        refine List.mem_cons_of_mem _ ?_
        rw [hk1]
        exact hmemin i hi
      · by_cases hk2 : (getBuf s b).blockno % N = (getBuf s i).blockno % N
        · rw [← hk2, hks]
          rw [List.mem_erase_of_ne (fun he => hbi he.symm)]
          rw [hk2]
          exact hmemin i hi
        · rw [hko _ hk1 hk2]
          exact hmemin i hi
  · intro k hk
    rw [bktAt_reassign]
    by_cases hk1 : bn % N = k
    · subst hk1
      rw [hkt]
      exact List.Nodup.cons hnotin (hnd _ hk)
    · by_cases hk2 : (getBuf s b).blockno % N = k
      · subst hk2
        rw [hks]
        exact List.Nodup.erase b (hnd _ hk)
      · rw [hko k hk1 hk2]
        exact hnd k hk
  · intro i hi hh
    rw [len_reassign] at hi
    have hi2 : i < s.buf.length := hi
    by_cases hbi : b = i
    · subst hbi
      rw [hnew]
      show firstMatch (reassign d bn b (migrate b ((getBuf s b).blockno % N) (bn % N) s)).buf
        (bktAt (reassign d bn b (migrate b ((getBuf s b).blockno % N) (bn % N) s)) (bn % N))
        d bn = some b
      rw [bktAt_reassign, hkt]
      apply fm_cons_match
      rw [hnewD]
      exact ⟨rfl, rfl⟩
    · have hh2 : (getBuf s i).refcnt ≠ 0 ∨ (getBuf s i).locked = true := by
        rw [hold i hbi] at hh
        exact hh
      have hfi := hheld i hi2 hh2
      rw [hold i hbi, bktAt_reassign]
      by_cases hk1 : bn % N = (getBuf s i).blockno % N
      · rw [← hk1, hkt]
        have hhead : ¬ bmatch
            ((reassign d bn b (migrate b ((getBuf s b).blockno % N) (bn % N) s)).buf.getD b
              buf0) (getBuf s i).dev (getBuf s i).blockno := by
          rw [hnewD]
          intro hcon
          have hcd : d = (getBuf s i).dev := hcon.1
          have hcb : bn = (getBuf s i).blockno := hcon.2
          have hiin : i ∈ bktAt s (bn % N) := by
            rw [hk1]
            exact hmemin i hi2
          exact hnomatch i hiin ⟨hcd.symm, hcb.symm⟩
        rw [fm_cons_no_match hhead]
        have hcg : firstMatch
            (reassign d bn b (migrate b ((getBuf s b).blockno % N) (bn % N) s)).buf
            (bktAt s (bn % N)) (getBuf s i).dev (getBuf s i).blockno =
            firstMatch s.buf (bktAt s (bn % N)) (getBuf s i).dev (getBuf s i).blockno := by
          apply fm_congr
          intro x hx
          have hxb : b ≠ x := fun he => hnotin (he ▸ hx)
          rw [holdD x hxb]
          exact ⟨rfl, rfl⟩
        rw [hcg, hk1]
        exact hfi
      · by_cases hk2 : (getBuf s b).blockno % N = (getBuf s i).blockno % N
        · rw [← hk2, hks]
          have hstep1 : firstMatch s.buf ((bktAt s ((getBuf s b).blockno % N)).erase b)
              (getBuf s i).dev (getBuf s i).blockno = some i := by
            apply fm_erase _ (fun he => hbi he.symm)
            rw [hk2]
            exact hfi
          have hstep2 : firstMatch
              (reassign d bn b (migrate b ((getBuf s b).blockno % N) (bn % N) s)).buf
              ((bktAt s ((getBuf s b).blockno % N)).erase b)
              (getBuf s i).dev (getBuf s i).blockno =
              firstMatch s.buf ((bktAt s ((getBuf s b).blockno % N)).erase b)
                (getBuf s i).dev (getBuf s i).blockno := by
            apply fm_congr
            intro x hx
            have hxb : b ≠ x := fun he =>
              ((List.Nodup.mem_erase_iff hnds).mp hx).1 he.symm
            rw [holdD x hxb]
            exact ⟨rfl, rfl⟩
          rw [hstep2]
          exact hstep1
        · rw [hko _ hk1 hk2]
          have hcg : firstMatch
              (reassign d bn b (migrate b ((getBuf s b).blockno % N) (bn % N) s)).buf
              (bktAt s ((getBuf s i).blockno % N)) (getBuf s i).dev (getBuf s i).blockno =
              firstMatch s.buf (bktAt s ((getBuf s i).blockno % N)) (getBuf s i).dev
                (getBuf s i).blockno := by
            apply fm_congr
            intro x hx
            have hxb : b ≠ x := by
              intro he
              exact hk2 (hcong _ (mod_n_lt _) b (he ▸ hx))
            rw [holdD x hxb]
            exact ⟨rfl, rfl⟩
          rw [hcg]
          exact hfi

theorem inv_bget {d bn i : Nat} {s t : State} (hInv : CacheInv s)
    (h : bget d bn s = some (i, t)) : CacheInv t := by
  rcases bget_some_elim h with ⟨hfm, rfl⟩ | ⟨hfm, hls, rfl⟩ | ⟨hfm, hls, hg, rfl⟩
  · exact inv_hit hInv hfm
  · exact inv_local hInv hfm hls
  · exact inv_global hInv hfm hls hg

theorem bread_of_bget {d bn i : Nat} {s t : State} (hb : bget d bn s = some (i, t)) :
    bread d bn s = some (breadBody i t) := by
  unfold bread
  rw [hb]

theorem bread_of_bget_none {d bn : Nat} {s : State} (hb : bget d bn s = none) :
    bread d bn s = none := by
  unfold bread
  rw [hb]

theorem bread_some_elim {d bn i : Nat} {r : Bool} {s u : State}
    (h : bread d bn s = some (i, r, u)) :
    ∃ t, bget d bn s = some (i, t) ∧
      ((getBuf t i).valid = true ∧ r = false ∧ u = t ∨
       (getBuf t i).valid = false ∧ r = true ∧ u = setValid i t) := by
  cases hb : bget d bn s with
  | none =>
      rw [bread_of_bget_none hb] at h
      exact Option.noConfusion h
  | some p =>
      obtain ⟨i0, t⟩ := p
      rw [bread_of_bget hb] at h
      injection h with h1
      unfold breadBody at h1
      by_cases hv : (getBuf t i0).valid = true
      · rw [if_pos hv] at h1
        injection h1 with h2 h3
        injection h3 with h4 h5
        subst h2
        exact ⟨t, rfl, Or.inl ⟨hv, h4.symm, h5.symm⟩⟩
      · rw [if_neg hv] at h1
        injection h1 with h2 h3
        injection h3 with h4 h5
        subst h2
        exact ⟨t, rfl, Or.inr ⟨Bool.not_eq_true _ ▸ hv, h4.symm, h5.symm⟩⟩

theorem inv_step {s t : State} (hInv : CacheInv s) (h : Step s t) : CacheInv t := by
  cases h with
  | fetch hb hl =>
      obtain ⟨t0, hbg, hcase⟩ := bread_some_elim hb
      rcases hcase with ⟨_, _, rfl⟩ | ⟨_, _, rfl⟩
      · exact inv_bget hInv hbg
      · exact inv_setValid (inv_bget hInv hbg)
  | write hb =>
      obtain ⟨_, rfl⟩ := bwrite_eq_some hb
      exact hInv
  | rel hb => exact inv_brelse hb hInv
  | pin hg => exact inv_bpin hg hInv
  | unpin hg => exact inv_bunpin hg hInv
  | clock => exact inv_tick hInv

theorem inv_reachable {n : Nat} {s : State} (h : Reachable n s) : CacheInv s := by
  induction h with
  | refl => exact inv_binit n
  | tail hpre hstep ih => exact inv_step ih hstep

theorem reach_tickN (m : Nat) (s : State) : Relation.ReflTransGen Step s (tickN m s) := by
  induction m with
  | zero => exact Relation.ReflTransGen.refl
  | succ k ih => exact Relation.ReflTransGen.tail ih Step.clock

/-! ### Further facts about `bget` and identity preservation -/

theorem getBuf_oob {i : Nat} {s : State} (h : ¬ i < s.buf.length) : getBuf s i = buf0 := by
  unfold getBuf
  exact List.getD_eq_default _ _ (by omega)

theorem getBuf_bumpRef_oob {i : Nat} {s : State} (h : ¬ i < s.buf.length) :
    getBuf (bumpRef i s) i = getBuf s i := by
  simp only [bumpRef, getBuf]
  rw [set_oob _ _ _ (by omega)]

theorem bget_lt {d bn i : Nat} {s t : State} (hInv : CacheInv s)
    (h : bget d bn s = some (i, t)) : i < s.buf.length := by
  obtain ⟨hlen, hbound, _, _, _, _⟩ := hInv
  rcases bget_some_elim h with ⟨hfm, _⟩ | ⟨_, hls, _⟩ | ⟨_, _, hg, _⟩
  · exact hbound _ (mod_n_lt bn) i (fm_some_mem hfm).1
  · exact hbound _ (mod_n_lt bn) i (lruScan_some hls).1
  · exact (globalScan_some hg).1

theorem bget_buf_len {d bn i : Nat} {s t : State} (h : bget d bn s = some (i, t)) :
    t.buf.length = s.buf.length := by
  rcases bget_some_elim h with ⟨_, rfl⟩ | ⟨_, _, rfl⟩ | ⟨_, _, _, rfl⟩
  · exact len_bumpRef i s
  · exact len_reassign d bn i s
  · exact len_reassign d bn i _

theorem bget_id {d bn i : Nat} {s t : State} (hInv : CacheInv s)
    (h : bget d bn s = some (i, t)) :
    (getBuf t i).dev = d ∧ (getBuf t i).blockno = bn ∧ (getBuf t i).locked = true := by
  have hlt := bget_lt hInv h
  rcases bget_some_elim h with ⟨hfm, rfl⟩ | ⟨hfm, hls, rfl⟩ | ⟨hfm, hls, hg, rfl⟩
  · rw [getBuf_bumpRef_self hlt]
    have hm := (fm_some_mem hfm).2
    exact ⟨hm.1, hm.2, rfl⟩
  · rw [getBuf_reassign_self hlt]
    exact ⟨rfl, rfl, rfl⟩
  · have hr : getBuf (reassign d bn i (migrate i ((getBuf s i).blockno % N) (bn % N) s)) i =
        { getBuf (migrate i ((getBuf s i).blockno % N) (bn % N) s) i with
            dev := d, blockno := bn, valid := false, refcnt := 1, locked := true } :=
      getBuf_reassign_self hlt
    rw [hr]
    exact ⟨rfl, rfl, rfl⟩

theorem bget_refcnt_pos_match {d bn i : Nat} {s t : State} (h : bget d bn s = some (i, t))
    (hpos : (getBuf s i).refcnt ≠ 0) : bmatch (getBuf s i) d bn := by
  rcases bget_some_elim h with ⟨hfm, _⟩ | ⟨_, hls, _⟩ | ⟨_, _, hg, _⟩
  · exact (fm_some_mem hfm).2
  · exact absurd (lruScan_some hls).2.1 hpos
  · exact absurd (globalScan_some hg).2.1 hpos

theorem bumpRef_id (x j : Nat) (u : State) :
    (getBuf (bumpRef x u) j).dev = (getBuf u j).dev ∧
    (getBuf (bumpRef x u) j).blockno = (getBuf u j).blockno := by
  by_cases hx : x = j
  · subst hx
    by_cases hl : x < u.buf.length
    · rw [getBuf_bumpRef_self hl]; exact ⟨rfl, rfl⟩
    · rw [getBuf_bumpRef_oob hl]; exact ⟨rfl, rfl⟩
  · rw [getBuf_bumpRef_ne hx]; exact ⟨rfl, rfl⟩

theorem setValid_id (x j : Nat) (u : State) :
    (getBuf (setValid x u) j).dev = (getBuf u j).dev ∧
    (getBuf (setValid x u) j).blockno = (getBuf u j).blockno := by
  by_cases hx : x = j
  · subst hx
    by_cases hl : x < u.buf.length
    · rw [getBuf_setValid_self hl]; exact ⟨rfl, rfl⟩
    · rw [getBuf_setValid_oob hl]; exact ⟨rfl, rfl⟩
  · rw [getBuf_setValid_ne hx]; exact ⟨rfl, rfl⟩

theorem bpin_id (x j : Nat) (u : State) :
    (getBuf (bpin x u) j).dev = (getBuf u j).dev ∧
    (getBuf (bpin x u) j).blockno = (getBuf u j).blockno := by
  by_cases hx : x = j
  · subst hx
    by_cases hl : x < u.buf.length
    · rw [getBuf_bpin_self hl]; exact ⟨rfl, rfl⟩
    · rw [getBuf_bpin_oob hl]; exact ⟨rfl, rfl⟩
  · rw [getBuf_bpin_ne hx]; exact ⟨rfl, rfl⟩

theorem bunpin_id (x j : Nat) (u : State) :
    (getBuf (bunpin x u) j).dev = (getBuf u j).dev ∧
    (getBuf (bunpin x u) j).blockno = (getBuf u j).blockno := by
  by_cases hx : x = j
  · subst hx
    by_cases hl : x < u.buf.length
    · rw [getBuf_bunpin_self hl]; exact ⟨rfl, rfl⟩
    · rw [getBuf_bunpin_oob hl]; exact ⟨rfl, rfl⟩
  · rw [getBuf_bunpin_ne hx]; exact ⟨rfl, rfl⟩

theorem brelseBody_id (x j : Nat) (u : State) :
    (getBuf (brelseBody x u) j).dev = (getBuf u j).dev ∧
    (getBuf (brelseBody x u) j).blockno = (getBuf u j).blockno := by
  by_cases hx : x = j
  · subst hx
    by_cases hl : x < u.buf.length
    · rw [getBuf_brelseBody_self hl]; exact ⟨rfl, rfl⟩
    · rw [getBuf_brelseBody_oob hl]; exact ⟨rfl, rfl⟩
  · rw [getBuf_brelseBody_ne hx]; exact ⟨rfl, rfl⟩

theorem bget_id_other {d bn b : Nat} {s t : State} (h : bget d bn s = some (b, t))
    (i : Nat) (hi : (getBuf s i).refcnt ≠ 0) :
    (getBuf t i).dev = (getBuf s i).dev ∧ (getBuf t i).blockno = (getBuf s i).blockno := by
  rcases bget_some_elim h with ⟨hfm, rfl⟩ | ⟨hfm, hls, rfl⟩ | ⟨hfm, hls, hg, rfl⟩
  · exact bumpRef_id b i s
  · have hbi : b ≠ i := by
      intro he
      subst he
      exact hi (lruScan_some hls).2.1
    rw [getBuf_reassign_ne hbi]
    exact ⟨rfl, rfl⟩
  · have hbi : b ≠ i := by
      intro he
      subst he
      exact hi (globalScan_some hg).2.1
    rw [getBuf_reassign_ne hbi]
    exact ⟨rfl, rfl⟩

/-! ### Reachability of the concrete witness states -/

theorem reach_demoA : Reachable 2 demoA := by
  have hb : bread 0 0 (binit 2) = some (0, true, demoA) := by decide
  have hl : (getBuf (binit 2) 0).locked = false := by decide
  exact Relation.ReflTransGen.tail Relation.ReflTransGen.refl (Step.fetch hb hl)

theorem reach_demoB : Reachable 2 demoB := by
  have hb : bread 0 1 demoA = some (1, true, demoB) := by decide
  have hl : (getBuf demoA 1).locked = false := by decide
  exact Relation.ReflTransGen.tail reach_demoA (Step.fetch hb hl)

theorem reach_cx3 : Reachable 2 cx3 := by
  have h1 : Relation.ReflTransGen Step (binit 2) (tickN 4294967295 (binit 2)) :=
    reach_tickN 4294967295 (binit 2)
  have hb : bread 0 0 (tickN 4294967295 (binit 2)) = some (0, true, cx3b) := by decide
  have hl : (getBuf (tickN 4294967295 (binit 2)) 0).locked = false := by decide
  have hr : brelse 0 cx3b = some cx3 := by decide
  exact Relation.ReflTransGen.tail
    (Relation.ReflTransGen.tail h1 (Step.fetch hb hl)) (Step.rel hr)

theorem reach_cx5 : Reachable 2 cx5 := by
  have hb : bread 0 0 (tickN 100 (binit 2)) = some (0, true, cx5) := by decide
  have hl : (getBuf (tickN 100 (binit 2)) 0).locked = false := by decide
  exact Relation.ReflTransGen.tail (reach_tickN 100 (binit 2)) (Step.fetch hb hl)

/-! ### The claims -/

/-- C1: in every reachable state of the cache, any two slots whose
`use_count` (`refcnt`) is positive have distinct `(device, block_number)`
identities; in particular no two live handles reference slots with equal
identity and positive use count at the same time. -/
theorem c1_unique_held_identity (n : Nat) (s : State) (hr : Reachable n s)
    (i j : Nat) (hi : i < s.buf.length) (hj : j < s.buf.length) (hij : i ≠ j)
    (hri : 0 < (getBuf s i).refcnt) (hrj : 0 < (getBuf s j).refcnt) :
    ¬((getBuf s i).dev = (getBuf s j).dev ∧
      (getBuf s i).blockno = (getBuf s j).blockno) := by
  obtain ⟨hlen, hbound, hcong, hmemin, hnd, hheld⟩ := inv_reachable hr
  rintro ⟨hd, hb⟩
  have h1 := hheld i hi (Or.inl (Nat.pos_iff_ne_zero.mp hri))
  have h2 := hheld j hj (Or.inl (Nat.pos_iff_ne_zero.mp hrj))
  rw [hd, hb] at h1
  rw [h1] at h2
  injection h2 with h3
  exact hij h3

/-- Witness for C1: after fetching blocks 0 and 1 from a fresh 2-slot cache,
the two held slots carry distinct identities. -/
theorem c1_witness :
    ¬((getBuf demoB 0).dev = (getBuf demoB 1).dev ∧
      (getBuf demoB 0).blockno = (getBuf demoB 1).blockno) :=
  c1_unique_held_identity 2 demoB reach_demoB 0 1 (by decide) (by decide)
    (by decide) (by decide) (by decide)

/-- C2: whenever `bget` escalates to the global scan from a reachable state
(the local scan of the target shard found neither a match nor a reclaim
candidate) and the global scan selects a candidate, the candidate's source
shard `candidate.blockno % N` differs from the target shard `blockno % N`,
so the migration's `acquire(&bucket[no2].lock)` never re-acquires the
already-held target shard lock. -/
theorem c2_migration_distinct_shard (n : Nat) (s : State) (hr : Reachable n s)
    (d bn b : Nat)
    (hmiss : firstMatch s.buf (bktAt s (bn % N)) d bn = none)
    (hlocal : lruScan s.buf (bktAt s (bn % N)) = none)
    (hglob : globalScan s.buf = some b) :
    (getBuf s b).blockno % N ≠ bn % N := by
  obtain ⟨hlen, hbound, hcong, hmemin, hnd, hheld⟩ := inv_reachable hr
  obtain ⟨hblen2, hbfree, hbtime⟩ := globalScan_some hglob
  intro he
  have hbin : b ∈ bktAt s (bn % N) := by
    have hx := hmemin b hblen2
    rw [he] at hx
    exact hx
  exact lg_ne_none_of_free ⟨b, hbin, hbfree, hbtime⟩ hlocal

/-- Witness for C2: with slot 0 held, a miss on `(5, 0)` escalates and the
global candidate (slot 1, home shard 1) is not in the target shard 0. -/
theorem c2_witness : (getBuf demoA 1).blockno % N ≠ 0 % N :=
  c2_migration_distinct_shard 2 demoA reach_demoA 5 0 1 (by decide) (by decide)
    (by decide)

/-- C3 counterexample: from a reachable state in which the only free slot of
the target shard carries the recency stamp `2^32 - 1` (the scan's initial
bound `(uint)-1`), a miss does not reclaim that slot — the minimal-recency
free slot of the shard — but migrates slot 1 from another shard instead:
the claim that a miss reclaims the minimal-recency free slot of the target
shard's list fails at this input. -/
theorem c3_counterexample :
    Reachable 2 cx3 ∧
    firstMatch cx3.buf (bktAt cx3 (13 % N)) 0 13 = none ∧
    0 ∈ bktAt cx3 (13 % N) ∧
    (getBuf cx3 0).refcnt = 0 ∧
    (∀ j ∈ bktAt cx3 (13 % N), (getBuf cx3 j).refcnt = 0 →
      (getBuf cx3 0).time ≤ (getBuf cx3 j).time) ∧
    ¬(1 ∈ bktAt cx3 (13 % N)) ∧
    (bget 0 13 cx3).map Prod.fst = some 1 :=
  ⟨reach_cx3, by decide, by decide, by decide, by decide, by decide, by decide⟩

/-- C3 (amended): on a cache miss, `bget` reclaims, among the slots of the
target shard's list with `use_count = 0` and recency below `2^32 - 1` (the
scan's initial bound), the one with the smallest recency, ties broken by
first position in scan order: if `b` is a free slot of the shard's list with
recency below the bound, minimal among the free slots, and strictly smaller
than every free slot before it in the list, then `bget` reclaims exactly
`b` and reassigns its identity. -/
theorem c3_local_lru (s : State) (d bn b : Nat) (l1 l2 : List Nat)
    (hmiss : firstMatch s.buf (bktAt s (bn % N)) d bn = none)
    (hsplit : bktAt s (bn % N) = l1 ++ b :: l2)
    (hfree : (getBuf s b).refcnt = 0)
    (htime : (getBuf s b).time < uintMax)
    (hmin : ∀ j ∈ bktAt s (bn % N), (getBuf s j).refcnt = 0 →
      (getBuf s b).time ≤ (getBuf s j).time)
    (hfirst : ∀ j ∈ l1, (getBuf s j).refcnt = 0 →
      (getBuf s b).time < (getBuf s j).time) :
    bget d bn s = some (b, reassign d bn b s) := by
  apply bget_local hmiss
  unfold lruScan
  rw [hsplit]
  apply lg_before hfree htime hfirst
  intro x hx hfx
  exact hmin x (by rw [hsplit]; simp [hx]) hfx

/-- Witness for C3 (amended): a miss on block 13 in a fresh 2-slot cache
reclaims slot 0, the (unique, hence minimal-recency) free slot of shard 0. -/
theorem c3_witness : bget 0 13 (binit 2) = some (0, reassign 0 13 0 (binit 2)) :=
  c3_local_lru (binit 2) 0 13 0 [] [] (by decide) (by decide) (by decide)
    (by decide) (by decide) (by decide)

/-- C4: if the target shard has no match and every slot of the pool has a
positive use count, `bget` fails fatally (`panic("bget: no buffers")`,
modelled as `none`); moreover a successful `bget` never returns a slot whose
use count was positive unless that slot already carried the requested
identity (a cache hit). -/
theorem c4_exhaustion_panic (s : State) (d bn : Nat) :
    ((∀ x ∈ bktAt s (bn % N), x < s.buf.length) →
      firstMatch s.buf (bktAt s (bn % N)) d bn = none →
      (∀ i, i < s.buf.length → (getBuf s i).refcnt ≠ 0) →
      bget d bn s = none) ∧
    (∀ b t, bget d bn s = some (b, t) → 0 < (getBuf s b).refcnt →
      bmatch (getBuf s b) d bn) := by
  constructor
  · intro hbound hfm hall
    apply bget_none hfm
    · unfold lruScan
      apply lg_of_no_free
      intro x hx
      exact hall x (hbound x hx)
    · unfold globalScan
      apply lg_of_no_free
      intro x hx
      exact hall x (List.mem_range.mp hx)
  · intro b t h hpos
    exact bget_refcnt_pos_match h (Nat.pos_iff_ne_zero.mp hpos)

/-- Witness for C4: fetching `POOL_SIZE + 1 = 3` distinct identities from a
2-slot cache with no release succeeds twice and fails with the fatal
out-of-buffers condition on the third fetch; and a hit on a held slot is the
only way a positive-use-count slot is returned. -/
theorem c4_witness :
    bread 0 0 (binit 2) = some (0, true, demoA) ∧
    bread 0 1 demoA = some (1, true, demoB) ∧
    bget 0 2 demoB = none ∧
    bmatch (getBuf demoB 0) 0 0 := by
  refine ⟨by decide, by decide, ?_, ?_⟩
  · exact (c4_exhaustion_panic demoB 0 2).1 (by decide) (by decide) (by decide)
  · exact (c4_exhaustion_panic demoB 0 0).2 0 (bumpRef 0 demoB) (by decide) (by decide)

/-- C5 counterexample: from a reachable state with `ticks = 100`, letting a
contract-respecting `bunpin` step bring slot 0's use count to 0 leaves the
recency stamp at its old value 0 instead of stamping it with the current
tick value: `bunpin` does not stamp recency. -/
theorem c5_counterexample :
    Reachable 2 cx5 ∧
    (getBuf cx5 0).refcnt = 1 ∧
    cx5.ticks = 100 ∧
    Step cx5 (bunpin 0 cx5) ∧
    (getBuf (bunpin 0 cx5) 0).refcnt = 0 ∧
    (getBuf (bunpin 0 cx5) 0).time = 0 ∧
    (getBuf (bunpin 0 cx5) 0).time ≠ (bunpin 0 cx5).ticks :=
  ⟨reach_cx5, by decide, by decide, Step.unpin (by decide), by decide, by decide,
    by decide⟩

/-- C5 (amended): `bunpin` decrements the use count and never touches the
recency stamp, even when the decrement reaches 0; only `brelse` stamps
recency.  All other slots are untouched. -/
theorem c5_unpin_no_stamp (s : State) (i : Nat) :
    (getBuf (bunpin i s) i).time = (getBuf s i).time ∧
    (bunpin i s).ticks = s.ticks ∧
    (i < s.buf.length → (getBuf (bunpin i s) i).refcnt = (getBuf s i).refcnt - 1) ∧
    (∀ j, i ≠ j → getBuf (bunpin i s) j = getBuf s j) := by
  refine ⟨?_, rfl, ?_, fun j hj => getBuf_bunpin_ne hj⟩
  · by_cases hl : i < s.buf.length
    · rw [getBuf_bunpin_self hl]
    · rw [getBuf_bunpin_oob hl]
  · intro hl
    rw [getBuf_bunpin_self hl]

/-- Witness for C5 (amended), at the reachable state `cx5`. -/
theorem c5_witness :
    (getBuf (bunpin 0 cx5) 0).time = (getBuf cx5 0).time ∧
    (getBuf (bunpin 0 cx5) 0).refcnt = (getBuf cx5 0).refcnt - 1 := by
  obtain ⟨h1, _, h3, _⟩ := c5_unpin_no_stamp cx5 0
  exact ⟨h1, h3 (by decide)⟩

/-- C6: no enabled operation ever changes the `(device, block_number)`
identity of a slot whose use count is positive; and every identity
reassignment performed by `bget` happens only on a slot whose use count was
0 when it was selected. -/
theorem c6_identity_stable :
    (∀ s t, Step s t → ∀ i, (getBuf s i).refcnt ≠ 0 →
      (getBuf t i).dev = (getBuf s i).dev ∧
      (getBuf t i).blockno = (getBuf s i).blockno) ∧
    (∀ d bn s b t, bget d bn s = some (b, t) →
      ¬((getBuf t b).dev = (getBuf s b).dev ∧
        (getBuf t b).blockno = (getBuf s b).blockno) →
      (getBuf s b).refcnt = 0) := by
  constructor
  · intro s t hstep i hi
    cases hstep with
    | fetch hb hl =>
        obtain ⟨t0, hbg, hcase⟩ := bread_some_elim hb
        rcases hcase with ⟨_, _, rfl⟩ | ⟨_, _, rfl⟩
        · exact bget_id_other hbg i hi
        · obtain ⟨h1, h2⟩ := bget_id_other hbg i hi
          obtain ⟨h3, h4⟩ := setValid_id _ i t0
          exact ⟨h3.trans h1, h4.trans h2⟩
    | write hb =>
        obtain ⟨_, rfl⟩ := bwrite_eq_some hb
        exact ⟨rfl, rfl⟩
    | rel hb =>
        obtain ⟨_, rfl⟩ := brelse_eq_some hb
        exact brelseBody_id _ i s
    | pin hg => exact bpin_id _ i s
    | unpin hg => exact bunpin_id _ i s
    | clock => exact ⟨rfl, rfl⟩
  · intro d bn s b t h hne
    rcases bget_some_elim h with ⟨hfm, rfl⟩ | ⟨hfm, hls, rfl⟩ | ⟨hfm, hls, hg, rfl⟩
    · exact absurd (bumpRef_id b b s) hne
    · exact (lruScan_some hls).2.1
    · exact (globalScan_some hg).2.1

/-- Witness for C6: a clock tick leaves the held slot 0 of `demoA` with its
identity, and the reclaim of slot 0 by `bget 5 0` from a fresh cache — which
does change the identity — happened on a slot with use count 0. -/
theorem c6_witness :
    ((getBuf (tick demoA) 0).dev = (getBuf demoA 0).dev ∧
      (getBuf (tick demoA) 0).blockno = (getBuf demoA 0).blockno) ∧
    (getBuf (binit 2) 0).refcnt = 0 := by
  obtain ⟨h1, h2⟩ := c6_identity_stable
  refine ⟨h1 demoA (tick demoA) Step.clock 0 (by decide), ?_⟩
  exact h2 5 0 (binit 2) 0 (reassign 5 0 0 (binit 2)) (by decide) (by decide)

/-- C7: `bread` invokes the Device I/O read primitive and sets `valid` to
true exactly when the slot returned by `bget` has `valid = false`; and after
a `bread` + `brelse` of an identity from a reachable state, an immediate
second `bread` of the same identity returns the same slot, already valid,
without invoking the read primitive again (the state changes only by the
reference-count bump of the hit). -/
theorem c7_read_exactly_on_invalid :
    (∀ s d bn i t, CacheInv s → bget d bn s = some (i, t) →
      bread d bn s = some (i, !(getBuf t i).valid,
        if (getBuf t i).valid = true then t else setValid i t) ∧
      (getBuf (if (getBuf t i).valid = true then t else setValid i t) i).valid = true) ∧
    (∀ n s d bn i r t u, Reachable n s → (getBuf s i).locked = false →
      bread d bn s = some (i, r, t) → brelse i t = some u →
      bread d bn u = some (i, false, bumpRef i u)) := by
  constructor
  · intro s d bn i t hInv hb
    have hlt : i < s.buf.length := bget_lt hInv hb
    have hlt2 : i < t.buf.length := by
      rw [bget_buf_len hb]
      exact hlt
    constructor
    · rw [bread_of_bget hb]
      unfold breadBody
      by_cases hv : (getBuf t i).valid = true
      · rw [if_pos hv, if_pos hv, hv]
        rfl
      · rw [if_neg hv, if_neg hv]
        have hv2 : (getBuf t i).valid = false := by
          rw [← Bool.not_eq_true]
          exact hv
        rw [hv2]
        rfl
    · by_cases hv : (getBuf t i).valid = true
      · rw [if_pos hv]
        exact hv
      · rw [if_neg hv]
        rw [getBuf_setValid_self hlt2]
  · intro n s d bn i r t u hr hl hb hrel
    have hInv := inv_reachable hr
    obtain ⟨t0, hbg, hcase⟩ := bread_some_elim hb
    have hInvT : CacheInv t := by
      rcases hcase with ⟨_, _, rfl⟩ | ⟨_, _, rfl⟩
      · exact inv_bget hInv hbg
      · exact inv_setValid (inv_bget hInv hbg)
    have hid0 := bget_id hInv hbg
    have hlen0 : i < t0.buf.length := by
      rw [bget_buf_len hbg]
      exact bget_lt hInv hbg
    have hfacts : (getBuf t i).dev = d ∧ (getBuf t i).blockno = bn ∧
        (getBuf t i).locked = true ∧ (getBuf t i).valid = true := by
      rcases hcase with ⟨hv, _, rfl⟩ | ⟨hv, _, rfl⟩
      · exact ⟨hid0.1, hid0.2.1, hid0.2.2, hv⟩
      · rw [getBuf_setValid_self hlen0]
        exact ⟨hid0.1, hid0.2.1, hid0.2.2, rfl⟩
    obtain ⟨hlenT, hboundT, hcongT, hmeminT, hndT, hheldT⟩ := hInvT
    have hiltT : i < t.buf.length := by
      rcases hcase with ⟨_, _, rfl⟩ | ⟨_, _, rfl⟩
      · exact hlen0
      · rw [len_setValid]
        exact hlen0
    have hfmT := hheldT i hiltT (Or.inr hfacts.2.2.1)
    rw [hfacts.1, hfacts.2.1] at hfmT
    obtain ⟨hlock, rfl⟩ := brelse_eq_some hrel
    have hfmU : firstMatch (brelseBody i t).buf (bktAt (brelseBody i t) (bn % N)) d bn =
        some i := by
      have hbk : bktAt (brelseBody i t) (bn % N) = bktAt t (bn % N) := rfl
      rw [hbk]
      exact (fm_congr fun x _ => brelseBody_id i x t).trans hfmT
    have hbgU : bget d bn (brelseBody i t) = some (i, bumpRef i (brelseBody i t)) :=
      bget_hit hfmU
    have hlenU : i < (brelseBody i t).buf.length := by
      rw [len_brelseBody]
      exact hiltT
    have hvalidU : (getBuf (bumpRef i (brelseBody i t)) i).valid = true := by
      rw [getBuf_bumpRef_self hlenU]
      show (getBuf (brelseBody i t) i).valid = true
      rw [getBuf_brelseBody_self hiltT]
      show (getBuf t i).valid = true
      exact hfacts.2.2.2
    rw [bread_of_bget hbgU]
    unfold breadBody
    rw [if_pos hvalidU]

/-- Witness for C7: in a fresh 2-slot cache, the first `bread 0 0` reads from
the device (flag `true`); after releasing, the second `bread 0 0` returns the
same slot 0, already valid, without reading (flag `false`). -/
theorem c7_witness :
    bread 0 0 demoU = some (0, false, bumpRef 0 demoU) ∧
    bread 0 0 (binit 2) = some (0, !(getBuf (bumpRef 0 (binit 2)) 0).valid,
      if (getBuf (bumpRef 0 (binit 2)) 0).valid = true then bumpRef 0 (binit 2)
      else setValid 0 (bumpRef 0 (binit 2))) := by
  refine ⟨?_, ?_⟩
  · exact c7_read_exactly_on_invalid.2 2 (binit 2) 0 0 0 true demoA demoU
      Relation.ReflTransGen.refl (by decide) (by decide) (by decide)
  · exact (c7_read_exactly_on_invalid.1 (binit 2) 0 0 0 (bumpRef 0 (binit 2))
      (by decide) (by decide)).1

/-- C8: `brelse` fails fatally (`panic("brelse")`, modelled as `none`)
exactly when the caller does not hold the slot's exclusive sleep lock;
otherwise it releases the lock, decrements the use count, stamps the recency
with the current tick value exactly when the decrement reaches 0, and leaves
every other field, every other slot, the bucket lists and the tick counter
unchanged. -/
theorem c8_brelse_contract (s : State) (i : Nat) :
    (brelse i s = none ↔ (getBuf s i).locked = false) ∧
    (∀ t, brelse i s = some t → i < s.buf.length →
      getBuf t i = { getBuf s i with
        locked := false,
        refcnt := (getBuf s i).refcnt - 1,
        time := if (getBuf s i).refcnt - 1 = 0 then s.ticks else (getBuf s i).time } ∧
      (∀ j, i ≠ j → getBuf t j = getBuf s j) ∧ t.bucket = s.bucket ∧ t.ticks = s.ticks) := by
  refine ⟨brelse_eq_none_iff i s, ?_⟩
  intro t h hl
  obtain ⟨_, rfl⟩ := brelse_eq_some h
  exact ⟨getBuf_brelseBody_self hl, fun j hj => getBuf_brelseBody_ne hj,
    bucket_brelseBody i s, ticks_brelseBody i s⟩

/-- Witness for C8: releasing held slot 0 of `cx8` (tick counter at 7)
unlocks it, drops the count from 1 to 0, and stamps recency 7; releasing the
unheld slot 1 fails fatally. -/
theorem c8_witness :
    brelse 0 cx8 = some (brelseBody 0 cx8) ∧
    getBuf (brelseBody 0 cx8) 0 = { getBuf cx8 0 with
      locked := false,
      refcnt := (getBuf cx8 0).refcnt - 1,
      time := if (getBuf cx8 0).refcnt - 1 = 0 then cx8.ticks else (getBuf cx8 0).time } ∧
    brelse 1 cx8 = none := by
  refine ⟨by decide, ?_, ?_⟩
  · exact ((c8_brelse_contract cx8 0).2 (brelseBody 0 cx8) (by decide) (by decide)).1
  · exact (c8_brelse_contract cx8 1).1.mpr (by decide)

/-- C9 counterexample: `bunpin` on a slot whose use count is already 0
(an unpin with no matching pin or fetch) does not fail fatally — the
function has no check and no failure case; it decrements the unsigned
counter unconditionally (in this Nat model the truncated decrement leaves
the state unchanged, in the C code the `uint` wraps around), in contrast to
`brelse`, whose misuse is caught. -/
theorem c9_counterexample :
    (getBuf (binit 2) 0).refcnt = 0 ∧
    bunpin 0 (binit 2) = binit 2 ∧
    brelse 0 (binit 2) = none :=
  ⟨by decide, by decide, by decide⟩

/-- C9 (amended): double-release, release-without-fetch and `bwrite` without
holding the exclusive lock all fail fatally at the offending call; `bunpin`
without a matching pin is not detected — it decrements the use count
unconditionally and returns normally. -/
theorem c9_pairing (s : State) (i : Nat) :
    ((getBuf s i).locked = false → brelse i s = none) ∧
    ((getBuf s i).locked = false → bwrite i s = none) ∧
    (∀ t, brelse i s = some t → brelse i t = none) ∧
    (i < s.buf.length → (getBuf (bunpin i s) i).refcnt = (getBuf s i).refcnt - 1) := by
  refine ⟨fun h => (brelse_eq_none_iff i s).mpr h,
    fun h => (bwrite_eq_none_iff i s).mpr h, ?_, ?_⟩
  · intro t h
    obtain ⟨hlk, rfl⟩ := brelse_eq_some h
    apply (brelse_eq_none_iff _ _).mpr
    by_cases hl : i < s.buf.length
    · rw [getBuf_brelseBody_self hl]
    · rw [getBuf_brelseBody_oob hl]
      rw [getBuf_oob hl] at hlk
      exact absurd hlk (by decide)
  · intro hl
    rw [getBuf_bunpin_self hl]

/-- Witness for C9 (amended), at the state `cx8` with slot 0 held and slot 1
free: misuse of `brelse`/`bwrite` on slot 1 and double release of slot 0 all
fail fatally, while `bunpin` on slot 0 just decrements. -/
theorem c9_witness :
    brelse 1 cx8 = none ∧ bwrite 1 cx8 = none ∧
    brelse 0 (brelseBody 0 cx8) = none ∧
    (getBuf (bunpin 0 cx8) 0).refcnt = (getBuf cx8 0).refcnt - 1 := by
  obtain ⟨h1, h2, _, _⟩ := c9_pairing cx8 1
  obtain ⟨_, _, g3, g4⟩ := c9_pairing cx8 0
  exact ⟨h1 (by decide), h2 (by decide), g3 (brelseBody 0 cx8) (by decide), g4 (by decide)⟩

/-- C10: every enabled operation preserves the hashing invariant: after any
step from a reachable state, a slot linked into shard `k`'s membership list
has `blockno % N = k` (migration rewrites `blockno` together with the list
splice), which is what lets `brelse`/`bpin`/`bunpin` recompute the owning
shard as `blockno % N`. -/
theorem c10_shard_congruence (n : Nat) (s t : State) (hr : Reachable n s) (hs : Step s t) :
    ∀ k, k < N → ∀ i ∈ bktAt t k, (getBuf t i).blockno % N = k := by
  have hInv := inv_step (inv_reachable hr) hs
  exact hInv.2.2.1

/-- Witness for C10: after a clock tick on `demoA`, slot 0 is linked into
shard 0 and indeed hashes to shard 0. -/
theorem c10_witness : (getBuf (tick demoA) 0).blockno % N = 0 :=
  c10_shard_congruence 2 demoA (tick demoA) reach_demoA Step.clock 0
    (by decide) 0 (by decide)
